import Mathlib

/-!
SymbolicVectorSystem (systems/primitives/symbolic_vector_system.cc)

A shallow embedding of the constructor, the feedthrough query, the environment
binder and the three evaluation callbacks of `SymbolicVectorSystem<double>`,
followed by theorems about them.

Conventions of the embedding

* `double` is carried by `ℚ`: the properties below concern which expression is
  evaluated under which bindings and where the result is stored, not rounding.
* Eigen vectors are lists; an index outside a vector is the fault `outOfRange`.
* A failed `DRAKE_DEMAND` / `DRAKE_ASSERT` is a fault carrying the source line
  of the macro call.
* A callback that fills a caller-supplied vector returns the status of the call
  together with the content of that vector when the call ended, so that what
  has been written before a fault stays visible.
-/

namespace drake
namespace systems

/-! ## Faults -/

/-- The ways in which a call can end abnormally. -/
inductive Fault where
  /-- A `DRAKE_DEMAND` whose condition was false; `line` is its source line. -/
  | demand (line : Nat)
  /-- A `DRAKE_ASSERT` whose condition was false; `line` is its source line. -/
  | assertion (line : Nat)
  /-- An element access outside the index range of a vector. -/
  | outOfRange
  /-- Evaluation of an expression met a variable without an entry in the
  environment. -/
  | unboundVariable
  deriving DecidableEq, Repr

deriving instance DecidableEq for Except

/-- Modelled from the spec: `DRAKE_DEMAND` (drake_assert.h is not part of the
sources at hand) is a fatal precondition that is checked in every build. -/
def DRAKE_DEMAND (line : Nat) (condition : Bool) : Except Fault Unit :=
  if condition then .ok () else .error (.demand line)

/-- The macro `DRAKE_ASSERT` is defined in drake_assert.h, which is not part of
the sources at hand. Whether it checks its condition is fixed when the library
is built (assertions armed or disarmed) and is the parameter `armed`; an armed
`DRAKE_ASSERT` is a fatal precondition like `DRAKE_DEMAND`. -/
def DRAKE_ASSERT (armed : Bool) (line : Nat) (condition : Bool) : Except Fault Unit :=
  if armed && !condition then .error (.assertion line) else .ok ()

/-! ## The symbolic library, at its interface -/

/-- Modelled from the spec: `symbolic::Variable`, an identifier whose equality
is by identity (`id`), never by name text. -/
structure Variable where
  id : Nat
  deriving DecidableEq, Repr

/-- Modelled from the spec: `symbolic::Variables`, a set of variables
(a `std::set`, iterated by increasing id). `elems` lists the members. -/
structure Variables where
  elems : List Variable
  deriving DecidableEq, Repr

/-- The empty set. -/
def Variables.empty : Variables := ⟨[]⟩

/-- Membership test, `Variables::include`. -/
def Variables.include (s : Variables) (v : Variable) : Bool := s.elems.contains v

/-- Insertion of one variable, `Variables::insert`: a member is not added a
second time, a new variable goes to its place in the id order. -/
def Variables.insert (s : Variables) (v : Variable) : Variables :=
  if s.include v then s
  else ⟨List.orderedInsert (fun a b => a.id ≤ b.id) v s.elems⟩

/-- The set of the entries of a vector, `Variables(vec)`. -/
def Variables.ofVector (vec : List Variable) : Variables :=
  vec.foldl Variables.insert Variables.empty

/-- Number of members, `Variables::size`. -/
def Variables.size (s : Variables) : Nat := s.elems.length

/-- Set containment, `Variables::IsSubsetOf`. -/
def Variables.IsSubsetOf (a b : Variables) : Bool := a.elems.all b.include

/-- Union of two sets. -/
def Variables.union (a b : Variables) : Variables := b.elems.foldl Variables.insert a

/-- Modelled from the spec: `symbolic::Environment`, a binding of variables to
numbers, kept as a list of entries with at most one entry per variable. -/
structure Environment where
  entries : List (Variable × ℚ)
  deriving DecidableEq, Repr

namespace Environment

/-- The environment without entries. -/
def empty : Environment := ⟨[]⟩

/-- The value bound to `v`, if any. -/
def find (env : Environment) (v : Variable) : Option ℚ := env.entries.lookup v

/-- The call `env.insert(v, x)`: adds the entry unless `v` already has one. -/
def insert (env : Environment) (v : Variable) (x : ℚ) : Environment :=
  match env.find v with
  | some _ => env
  | none => ⟨env.entries ++ [(v, x)]⟩

/-- Replaces the value of the entry of `v` in a list of entries. -/
def replace (v : Variable) (x : ℚ) : List (Variable × ℚ) → List (Variable × ℚ)
  | [] => []
  | (w, y) :: rest => if w = v then (w, x) :: rest else (w, y) :: replace v x rest

/-- The statement `env[v] = x`: overwrites the entry of `v`, creating it when
there is none. -/
def assign (env : Environment) (v : Variable) (x : ℚ) : Environment :=
  match env.find v with
  | some _ => ⟨replace v x env.entries⟩
  | none => ⟨env.entries ++ [(v, x)]⟩

/-- The variables that have an entry. -/
def keys (env : Environment) : List Variable := env.entries.map Prod.fst

end Environment

/-- Modelled from the spec: `symbolic::Expression`, a term built from
variables, constants and operators; the operators are those of the scenarios
of the specification (negation, sum, product). -/
inductive Expression where
  | var (v : Variable)
  | const (c : ℚ)
  | neg (e : Expression)
  | add (a b : Expression)
  | mul (a b : Expression)
  deriving DecidableEq, Repr

namespace Expression

/-- The set of variables an expression refers to, `Expression::GetVariables`. -/
def GetVariables : Expression → Variables
  | var v => Variables.empty.insert v
  | const _ => Variables.empty
  | neg e => e.GetVariables
  | add a b => a.GetVariables.union b.GetVariables
  | mul a b => a.GetVariables.union b.GetVariables

/-- The value of an expression under an environment, `Expression::Evaluate`;
a variable without an entry is a fault. -/
def Evaluate : Expression → Environment → Except Fault ℚ
  | var v, env =>
    match env.find v with
    | some x => .ok x
    | none => .error .unboundVariable
  | const c, _ => .ok c
  | neg e, env =>
    match e.Evaluate env with
    | .ok x => .ok (-x)
    | .error f => .error f
  | add a b, env =>
    match a.Evaluate env with
    | .error f => .error f
    | .ok x =>
      match b.Evaluate env with
      | .error f => .error f
      | .ok y => .ok (x + y)
  | mul a b, env =>
    match a.Evaluate env with
    | .error f => .error f
    | .ok x =>
      match b.Evaluate env with
      | .error f => .error f
      | .ok y => .ok (x * y)

end Expression

/-! ## The framework, at its interface -/

/-- Modelled from the spec: the declarations a system registers with the
framework while it is constructed, one list entry per call. -/
structure LeafSystem where
  /-- Widths passed to `DeclareInputPort(kVectorValued, n)`. -/
  input_ports : List Nat := []
  /-- Widths passed to `DeclareContinuousState(n)`. -/
  continuous_states : List Nat := []
  /-- Widths passed to `DeclareDiscreteState(n)`. -/
  discrete_states : List Nat := []
  /-- Period and offset passed to `DeclarePeriodicDiscreteUpdate`. -/
  periodic_discrete_updates : List (ℚ × ℚ) := []
  /-- Widths of the vectors passed to `DeclareVectorOutputPort`. -/
  vector_output_ports : List Nat := []
  deriving DecidableEq, Repr

/-- Modelled from the spec: the context accessor, giving the current time, the
continuous state vector, the discrete state vector and the value of the input
port (which the framework has connected or fixed). -/
structure Context where
  time : ℚ
  continuous_state : List ℚ
  discrete_state : List ℚ
  input : List ℚ
  deriving DecidableEq, Repr

/-- The call `vec.SetAtIndex(i, x)` and the assignment `vec[i] = x` on a
framework vector: an index outside the vector is a fault. -/
def SetAtIndex (vec : List ℚ) (i : Nat) (x : ℚ) : Except Fault (List ℚ) :=
  if i < vec.length then .ok (vec.set i x) else .error .outOfRange

/-! ## SymbolicVectorSystem -/

/-- The arguments of the constructor. -/
structure Args where
  time_var : Option Variable
  state_vars : List Variable
  input_vars : List Variable
  dynamics : List Expression
  output : List Expression
  time_period : ℚ
  deriving DecidableEq, Repr

/-- The members of a `SymbolicVectorSystem<double>` together with the
declarations made by its constructor. -/
structure SymbolicVectorSystem where
  time_var_ : Option Variable
  state_vars_ : List Variable
  input_vars_ : List Variable
  dynamics_ : List Expression
  output_ : List Expression
  time_period_ : ℚ
  env_ : Environment
  leaf : LeafSystem
  deriving DecidableEq, Repr

/-- The loop
`for (int i = 0; i < exprs.rows(); i++) DRAKE_ASSERT(exprs[i].GetVariables().IsSubsetOf(all_vars));`
of the constructor (lines 44-46 and 55-57). -/
def assertDeclared (armed : Bool) (line : Nat) (all_vars : Variables) :
    List Expression → Except Fault Unit
  | [] => .ok ()
  | e :: rest =>
    match DRAKE_ASSERT armed line (e.GetVariables.IsSubsetOf all_vars) with
    | .error f => .error f
    | .ok _ => assertDeclared armed line all_vars rest

/-- The set `all_vars` of the constructor after line 38. -/
def allVars (a : Args) : Variables :=
  let all_vars := Variables.ofVector (a.state_vars ++ a.input_vars)
  match a.time_var with
  | some t => all_vars.insert t
  | none => all_vars

/-- The declarations of lines 40-60, in the order of the calls. -/
def declarations (a : Args) : LeafSystem :=
  let leaf : LeafSystem := {}
  let leaf :=
    if a.input_vars.length > 0 then
      { leaf with input_ports := leaf.input_ports ++ [a.input_vars.length] }
    else leaf
  let leaf :=
    if a.state_vars.length > 0 then
      if a.time_period = 0 then
        { leaf with continuous_states := leaf.continuous_states ++ [a.state_vars.length] }
      else
        { leaf with
          discrete_states := leaf.discrete_states ++ [a.state_vars.length]
          periodic_discrete_updates := leaf.periodic_discrete_updates ++ [(a.time_period, 0)] }
    else leaf
  if a.output.length > 0 then
    { leaf with vector_output_ports := leaf.vector_output_ports ++ [a.output.length] }
  else leaf

/-- The loop `for (const auto& v : all_vars) env_.insert(v, 0.0);` (lines 63-65). -/
def envTemplate (all_vars : Variables) : Environment :=
  all_vars.elems.foldl (fun env v => env.insert v 0) Environment.empty

/-- The constructor (lines 14-66). `armed` tells whether `DRAKE_ASSERT` checks
its condition in this build. The checks run in the order of the source (lines
27, 28, 35, 45, 56); the declarations made between them do not influence any
check and are gathered in `declarations`. The result is the constructed
system, or the fault that ended construction. -/
def SymbolicVectorSystem.construct (armed : Bool) (a : Args) :
    Except Fault SymbolicVectorSystem :=
  match DRAKE_DEMAND 27 (decide (a.dynamics.length > 0) || decide (a.output.length > 0)) with
  | .error f => .error f
  | .ok _ =>
  match DRAKE_DEMAND 28 (decide (a.time_period ≥ 0)) with
  | .error f => .error f
  | .ok _ =>
  match DRAKE_DEMAND 35
      (decide ((Variables.ofVector (a.state_vars ++ a.input_vars)).size
        = (a.state_vars ++ a.input_vars).length)) with
  | .error f => .error f
  | .ok _ =>
  match (if a.state_vars.length > 0 then assertDeclared armed 45 (allVars a) a.dynamics
         else .ok ()) with
  | .error f => .error f
  | .ok _ =>
  match (if a.output.length > 0 then assertDeclared armed 56 (allVars a) a.output
         else .ok ()) with
  | .error f => .error f
  | .ok _ =>
    .ok { time_var_ := a.time_var
          state_vars_ := a.state_vars
          input_vars_ := a.input_vars
          dynamics_ := a.dynamics
          output_ := a.output
          time_period_ := a.time_period
          env_ := envTemplate (allVars a)
          leaf := declarations a }

/-- One element read of `DoHasDirectFeedthrough`: `output_[i]` or
`input_vars_[j]`. -/
inductive Access where
  | output (i : Nat)
  | input_vars (j : Nat)
  deriving DecidableEq, Repr

/-- How a loop body or a loop ended: the loop goes on, the function returned a
value, or a fault occurred. -/
inductive Flow where
  | next
  | returned (value : Option Bool)
  | fault (f : Fault)
  deriving DecidableEq, Repr

/-- The element reads performed by a call, in order, and how the call ended. -/
structure Run where
  reads : List Access
  flow : Flow
  deriving DecidableEq, Repr

/-- The inner loop of `DoHasDirectFeedthrough` (lines 74-76) for a fixed `i`,
run over the values of `j` that are left; the caller passes the values
`0, ..., input_vars_.size()` admitted by the loop condition
`j <= input_vars_.size()`. -/
def feedthroughInner (sys : SymbolicVectorSystem) (i : Nat) : List Nat → Run
  | [] => ⟨[], .next⟩
  | j :: js =>
    match sys.output_[i]? with
    | none => ⟨[.output i], .fault .outOfRange⟩
    | some e =>
      match sys.input_vars_[j]? with
      | none => ⟨[.output i, .input_vars j], .fault .outOfRange⟩
      | some v =>
        if e.GetVariables.include v then ⟨[.output i, .input_vars j], .returned (some true)⟩
        else
          let rest := feedthroughInner sys i js
          ⟨[.output i, .input_vars j] ++ rest.reads, rest.flow⟩

/-- The outer loop of `DoHasDirectFeedthrough` (lines 73-77), run over the
values of `i` that are left; the caller passes the values
`0, ..., output_.size()` admitted by the loop condition `i <= output_.size()`. -/
def feedthroughOuter (sys : SymbolicVectorSystem) : List Nat → Run
  | [] => ⟨[], .next⟩
  | i :: is =>
    let inner := feedthroughInner sys i (List.range (sys.input_vars_.length + 1))
    match inner.flow with
    | .next =>
      let rest := feedthroughOuter sys is
      ⟨inner.reads ++ rest.reads, rest.flow⟩
    | _ => inner

/-- The method `DoHasDirectFeedthrough(input_port, output_port)` (lines 68-79),
with the element reads it performs. -/
def SymbolicVectorSystem.DoHasDirectFeedthrough (sys : SymbolicVectorSystem)
    (input_port output_port : Int) : Run :=
  match DRAKE_DEMAND 71 (decide (input_port = 0)) with
  | .error f => ⟨[], .fault f⟩
  | .ok _ =>
  match DRAKE_DEMAND 72 (decide (output_port = 0)) with
  | .error f => ⟨[], .fault f⟩
  | .ok _ =>
    let loops := feedthroughOuter sys (List.range (sys.output_.length + 1))
    match loops.flow with
    | .next => ⟨loops.reads, .returned (some false)⟩
    | _ => loops

/-- The loops `for (int i = 0; i < vars.size(); i++) (*env)[vars[i]] = values[i];`
of `PopulateEnvironmentFromContext` (lines 91-93 and 97-99), run over the
values of `i` that are left. -/
def bindVariables (vars : List Variable) (values : List ℚ) :
    List Nat → Environment → Except Fault Environment
  | [], env => .ok env
  | i :: is, env =>
    match vars[i]?, values[i]? with
    | some v, some x => bindVariables vars values is (env.assign v x)
    | _, _ => .error .outOfRange

/-- The vector `state` of `PopulateEnvironmentFromContext` (lines 88-90):
`context.get_discrete_state_vector()` if `time_period_ > 0.0`, else
`context.get_continuous_state_vector()`. -/
def SymbolicVectorSystem.stateVector (sys : SymbolicVectorSystem) (context : Context) :
    List ℚ :=
  if sys.time_period_ > 0 then context.discrete_state else context.continuous_state

/-- The first block of `PopulateEnvironmentFromContext` (lines 84-86):
`if (time_var_) (*env)[*time_var_] = context.get_time();`. -/
def SymbolicVectorSystem.bindTime (sys : SymbolicVectorSystem) (context : Context)
    (env : Environment) : Environment :=
  match sys.time_var_ with
  | some t => env.assign t context.time
  | none => env

/-- The second block of `PopulateEnvironmentFromContext` (lines 87-94): the
state variables, when there are any, are bound to the components of `state`. -/
def SymbolicVectorSystem.bindState (sys : SymbolicVectorSystem) (context : Context)
    (env : Environment) : Except Fault Environment :=
  if sys.state_vars_.length > 0 then
    let state := sys.stateVector context
    bindVariables sys.state_vars_ state (List.range sys.state_vars_.length) env
  else .ok env

/-- The third block of `PopulateEnvironmentFromContext` (lines 95-100): the
input variables, when there are any, are bound to the components of the value
of the input port. -/
def SymbolicVectorSystem.bindInput (sys : SymbolicVectorSystem) (context : Context)
    (env : Environment) : Except Fault Environment :=
  if sys.input_vars_.length > 0 then
    let input := context.input
    bindVariables sys.input_vars_ input (List.range sys.input_vars_.length) env
  else .ok env

/-- The method `PopulateEnvironmentFromContext(context, env)` (lines 81-101):
its three blocks in sequence; the result is the environment after the call,
or the fault that ended it. -/
def SymbolicVectorSystem.PopulateEnvironmentFromContext (sys : SymbolicVectorSystem)
    (context : Context) (env : Environment) : Except Fault Environment :=
  match sys.bindState context (sys.bindTime context env) with
  | .error f => .error f
  | .ok env => sys.bindInput context env

/-- The loops `for (int i = 0; i < exprs.size(); i++) vec[i] = exprs[i].Evaluate(env);`
of the three callbacks (lines 110-112, 124-126, 141-143), run over the values
of `i` that are left: the status of the loop and the content of `vec` when it
ended. -/
def evaluateInto (exprs : List Expression) (env : Environment) :
    List Nat → List ℚ → Except Fault Unit × List ℚ
  | [], vec => (.ok (), vec)
  | i :: is, vec =>
    match exprs[i]? with
    | none => (.error .outOfRange, vec)
    | some e =>
      match e.Evaluate env with
      | .error f => (.error f, vec)
      | .ok x =>
        match SetAtIndex vec i x with
        | .error f => (.error f, vec)
        | .ok vec => evaluateInto exprs env is vec

/-- The method `CalcOutput(context, output_vector)` (lines 103-113): the status
of the call and the content of `output_vector` when it ended. -/
def SymbolicVectorSystem.CalcOutput (sys : SymbolicVectorSystem) (context : Context)
    (output_vector : List ℚ) : Except Fault Unit × List ℚ :=
  match DRAKE_DEMAND 106 (decide (sys.output_.length > 0)) with
  | .error f => (.error f, output_vector)
  | .ok _ =>
    match sys.PopulateEnvironmentFromContext context sys.env_ with
    | .error f => (.error f, output_vector)
    | .ok env => evaluateInto sys.output_ env (List.range sys.output_.length) output_vector

/-- The method `DoCalcTimeDerivatives(context, derivatives)` (lines 115-127):
the status of the call and the content of the derivative vector when it
ended. -/
def SymbolicVectorSystem.DoCalcTimeDerivatives (sys : SymbolicVectorSystem)
    (context : Context) (derivatives : List ℚ) : Except Fault Unit × List ℚ :=
  match DRAKE_DEMAND 118 (decide (sys.time_period_ = 0)) with
  | .error f => (.error f, derivatives)
  | .ok _ =>
  match DRAKE_DEMAND 119 (decide (sys.dynamics_.length > 0)) with
  | .error f => (.error f, derivatives)
  | .ok _ =>
    match sys.PopulateEnvironmentFromContext context sys.env_ with
    | .error f => (.error f, derivatives)
    | .ok env => evaluateInto sys.dynamics_ env (List.range sys.dynamics_.length) derivatives

/-- The method `DoCalcDiscreteVariableUpdates(context, events, updates)`
(lines 129-144); `events` is a list of event labels and is not looked at. The
result is the status of the call and the content of the update vector when it
ended. -/
def SymbolicVectorSystem.DoCalcDiscreteVariableUpdates (sys : SymbolicVectorSystem)
    (context : Context) (_events : List Nat) (updates : List ℚ) :
    Except Fault Unit × List ℚ :=
  match DRAKE_DEMAND 135 (decide (sys.time_period_ > 0)) with
  | .error f => (.error f, updates)
  | .ok _ =>
  match DRAKE_DEMAND 136 (decide (sys.dynamics_.length > 0)) with
  | .error f => (.error f, updates)
  | .ok _ =>
    match sys.PopulateEnvironmentFromContext context sys.env_ with
    | .error f => (.error f, updates)
    | .ok env => evaluateInto sys.dynamics_ env (List.range sys.dynamics_.length) updates

/-! ## The callbacks as steps on the system object -/

/-- The environment that a pointer `Environment*` designates while a callback
runs: the member `env_` of the system, or the local variable `env` of the
callback, which is a copy of the member. -/
inductive EnvRef where
  | member
  | copy
  deriving DecidableEq, Repr

/-- The two environments alive while a callback runs: the member `env_` and
the local variable `env`. -/
structure Frame where
  env_ : Environment
  env : Environment
  deriving DecidableEq, Repr

/-- The statement `(*p)[v] = x` for a pointer `p` to one of the two
environments. -/
def Frame.assignAt (frame : Frame) (p : EnvRef) (v : Variable) (x : ℚ) : Frame :=
  match p with
  | .member => { frame with env_ := frame.env_.assign v x }
  | .copy => { frame with env := frame.env.assign v x }

/-- The binding loops of lines 91-93 and 97-99 with the pointer `env` of the
binder made explicit: the status of the loop and the two environments when it
ended. -/
def bindVariablesAt (p : EnvRef) (vars : List Variable) (values : List ℚ) :
    List Nat → Frame → Except Fault Unit × Frame
  | [], frame => (.ok (), frame)
  | i :: is, frame =>
    match vars[i]?, values[i]? with
    | some v, some x => bindVariablesAt p vars values is (frame.assignAt p v x)
    | _, _ => (.error .outOfRange, frame)

/-- Lines 84-86 with the pointer made explicit. -/
def SymbolicVectorSystem.bindTimeAt (sys : SymbolicVectorSystem) (context : Context)
    (p : EnvRef) (frame : Frame) : Frame :=
  match sys.time_var_ with
  | some t => frame.assignAt p t context.time
  | none => frame

/-- Lines 87-94 with the pointer made explicit. -/
def SymbolicVectorSystem.bindStateAt (sys : SymbolicVectorSystem) (context : Context)
    (p : EnvRef) (frame : Frame) : Except Fault Unit × Frame :=
  if sys.state_vars_.length > 0 then
    let state := sys.stateVector context
    bindVariablesAt p sys.state_vars_ state (List.range sys.state_vars_.length) frame
  else (.ok (), frame)

/-- Lines 95-100 with the pointer made explicit. -/
def SymbolicVectorSystem.bindInputAt (sys : SymbolicVectorSystem) (context : Context)
    (p : EnvRef) (frame : Frame) : Except Fault Unit × Frame :=
  if sys.input_vars_.length > 0 then
    let input := context.input
    bindVariablesAt p sys.input_vars_ input (List.range sys.input_vars_.length) frame
  else (.ok (), frame)

/-- The method `PopulateEnvironmentFromContext(context, env)` (lines 81-101)
with its pointer argument made explicit: the status of the call and the two
environments when it ended. -/
def SymbolicVectorSystem.populateAt (sys : SymbolicVectorSystem) (context : Context)
    (p : EnvRef) (frame : Frame) : Except Fault Unit × Frame :=
  match sys.bindStateAt context p (sys.bindTimeAt context p frame) with
  | (.error f, frame) => (.error f, frame)
  | (.ok _, frame) => sys.bindInputAt context p frame

/-- The common body of the three callbacks after their `DRAKE_DEMAND`s (lines
107-112, 120-126, 137-143): `Environment env = env_;` copies the member into
the local variable, `PopulateEnvironmentFromContext(context, &env)` receives
the address of the local variable, and the loop evaluates under the local
variable. The result is the member `env_` when the body ended, the status and
the content of the vector. -/
def SymbolicVectorSystem.evaluateOnCopy (sys : SymbolicVectorSystem) (context : Context)
    (exprs : List Expression) (vec : List ℚ) :
    Environment × (Except Fault Unit × List ℚ) :=
  let frame : Frame := { env_ := sys.env_, env := sys.env_ }
  match sys.populateAt context .copy frame with
  | (.error f, frame) => (frame.env_, (.error f, vec))
  | (.ok _, frame) => (frame.env_, evaluateInto exprs frame.env (List.range exprs.length) vec)

/-- A call of one of the three evaluation callbacks, with its arguments. -/
inductive Call where
  | CalcOutput (context : Context) (output_vector : List ℚ)
  | DoCalcTimeDerivatives (context : Context) (derivatives : List ℚ)
  | DoCalcDiscreteVariableUpdates (context : Context) (events : List Nat) (updates : List ℚ)

/-- One call of a callback as a step on the system object: the object after
the call, whose member `env_` is the one the body left behind, and what the
call produced. -/
def SymbolicVectorSystem.call (sys : SymbolicVectorSystem) :
    Call → SymbolicVectorSystem × (Except Fault Unit × List ℚ)
  | .CalcOutput context output_vector =>
    match DRAKE_DEMAND 106 (decide (sys.output_.length > 0)) with
    | .error f => (sys, (.error f, output_vector))
    | .ok _ =>
      let r := sys.evaluateOnCopy context sys.output_ output_vector
      ({ sys with env_ := r.1 }, r.2)
  | .DoCalcTimeDerivatives context derivatives =>
    match DRAKE_DEMAND 118 (decide (sys.time_period_ = 0)) with
    | .error f => (sys, (.error f, derivatives))
    | .ok _ =>
    match DRAKE_DEMAND 119 (decide (sys.dynamics_.length > 0)) with
    | .error f => (sys, (.error f, derivatives))
    | .ok _ =>
      let r := sys.evaluateOnCopy context sys.dynamics_ derivatives
      ({ sys with env_ := r.1 }, r.2)
  | .DoCalcDiscreteVariableUpdates context _events updates =>
    match DRAKE_DEMAND 135 (decide (sys.time_period_ > 0)) with
    | .error f => (sys, (.error f, updates))
    | .ok _ =>
    match DRAKE_DEMAND 136 (decide (sys.dynamics_.length > 0)) with
    | .error f => (sys, (.error f, updates))
    | .ok _ =>
      let r := sys.evaluateOnCopy context sys.dynamics_ updates
      ({ sys with env_ := r.1 }, r.2)

/-- The system object after a sequence of calls. -/
def SymbolicVectorSystem.after (sys : SymbolicVectorSystem) : List Call → SymbolicVectorSystem
  | [] => sys
  | c :: calls => (sys.call c).1.after calls

/-- What a binder that ran on the local variable hands to its caller: the
local variable, or the fault. -/
def Frame.outcome (r : Except Fault Unit × Frame) : Except Fault Environment :=
  match r.1 with
  | .ok _ => .ok r.2.env
  | .error f => .error f

/-- A context and the vectors handed to the callbacks are allocated by the
framework from the declarations of the system: the continuous state, the
discrete state and the input value of a context have the declared widths
(width 0 where nothing was declared). -/
def Context.AllocatedFor (context : Context) (sys : SymbolicVectorSystem) : Prop :=
  context.continuous_state.length = sys.leaf.continuous_states.sum ∧
  context.discrete_state.length = sys.leaf.discrete_states.sum ∧
  context.input.length = sys.leaf.input_ports.sum

instance (context : Context) (sys : SymbolicVectorSystem) :
    Decidable (context.AllocatedFor sys) := by
  unfold Context.AllocatedFor; infer_instance

/-! ## Vocabulary of the properties -/

/-- A variable is declared by the constructor arguments: it is the time
variable, a state variable or an input variable. -/
def Args.Declares (a : Args) (v : Variable) : Prop :=
  a.time_var = some v ∨ v ∈ a.state_vars ∨ v ∈ a.input_vars

instance (a : Args) (v : Variable) : Decidable (a.Declares v) := by
  unfold Args.Declares; infer_instance

/-- Some expression of the vector refers to a variable that the constructor
arguments do not declare. -/
def Args.HasUndeclared (a : Args) (exprs : List Expression) : Prop :=
  ∃ e ∈ exprs, ∃ v ∈ e.GetVariables.elems, ¬ a.Declares v

instance (a : Args) (exprs : List Expression) : Decidable (a.HasUndeclared exprs) := by
  unfold Args.HasUndeclared; infer_instance

/-- An environment binds the time variable to the time of the context, state
variable `k` to component `k` of the state vector and input variable `k` to
component `k` of the input value. -/
def Environment.BindsContext (env : Environment) (sys : SymbolicVectorSystem)
    (context : Context) : Prop :=
  (∀ t, sys.time_var_ = some t → env.find t = some context.time) ∧
  (∀ (k : Nat) (v : Variable) (x : ℚ), sys.state_vars_[k]? = some v →
    (sys.stateVector context)[k]? = some x → env.find v = some x) ∧
  (∀ (k : Nat) (v : Variable) (x : ℚ), sys.input_vars_[k]? = some v →
    context.input[k]? = some x → env.find v = some x)

/-- The index of an element read lies inside the vector that is read. -/
def Access.inRange (sys : SymbolicVectorSystem) : Access → Bool
  | .output i => decide (i < sys.output_.length)
  | .input_vars j => decide (j < sys.input_vars_.length)

/-- A call completed (it returned a value) and every element read it performed
was inside the vector read. -/
def Run.CompletesInRange (r : Run) (sys : SymbolicVectorSystem) : Prop :=
  (∃ value, r.flow = .returned value) ∧ ∀ a ∈ r.reads, a.inRange sys = true

/-- The first output expression exists and refers to at least one input
variable. -/
def SymbolicVectorSystem.FirstOutputUsesInput (sys : SymbolicVectorSystem) : Prop :=
  ∃ e, sys.output_[0]? = some e ∧ ∃ v ∈ sys.input_vars_, e.GetVariables.include v = true

/-- A callback was stopped by one of its precondition checks: its status is
the fault of a `DRAKE_DEMAND`. -/
def StoppedByDemand (r : Except Fault Unit × List ℚ) : Prop :=
  ∃ line, r.1 = .error (.demand line)

/-- The variables of the scenarios used as concrete inputs below. -/
def Scenario.t : Variable := ⟨0⟩

/-- The first state variable of the scenarios. -/
def Scenario.x : Variable := ⟨1⟩

/-- The input variable of the scenarios. -/
def Scenario.u : Variable := ⟨2⟩

/-- A second state variable. -/
def Scenario.x2 : Variable := ⟨3⟩

/-- A third state variable. -/
def Scenario.x3 : Variable := ⟨4⟩

/-- A variable that no scenario declares. -/
def Scenario.z : Variable := ⟨9⟩

/-! ## Sets of variables -/

theorem Variables.include_iff_mem (s : Variables) (w : Variable) :
    s.include w = true ↔ w ∈ s.elems := by
  simp [Variables.include]

theorem Variables.include_empty (w : Variable) : Variables.empty.include w = false := by
  simp [Variables.include, Variables.empty]

theorem Variables.include_insert (s : Variables) (v w : Variable) :
    (s.insert v).include w = true ↔ w = v ∨ s.include w = true := by
  unfold Variables.insert
  split
  · rename_i h
    constructor
    · intro hw; exact Or.inr hw
    · rintro (rfl | hw)
      · exact h
      · exact hw
  · simp [Variables.include]

theorem Variables.size_insert (s : Variables) (v : Variable) :
    (s.insert v).size = if s.include v then s.size else s.size + 1 := by
  unfold Variables.insert
  split
  · rfl
  · simp [Variables.size, List.orderedInsert_length]

theorem Variables.include_foldl_insert (l : List Variable) (s : Variables) (w : Variable) :
    (l.foldl Variables.insert s).include w = true ↔ w ∈ l ∨ s.include w = true := by
  induction l generalizing s with
  | nil => simp
  | cons v l ih =>
    rw [List.foldl_cons, ih, Variables.include_insert, List.mem_cons]
    tauto

theorem Variables.include_ofVector (l : List Variable) (w : Variable) :
    (Variables.ofVector l).include w = true ↔ w ∈ l := by
  simp [Variables.ofVector, Variables.include_foldl_insert, Variables.include_empty]

theorem Variables.include_union (a b : Variables) (w : Variable) :
    (a.union b).include w = true ↔ a.include w = true ∨ b.include w = true := by
  unfold Variables.union
  rw [Variables.include_foldl_insert, ← Variables.include_iff_mem]
  tauto

theorem Variables.isSubsetOf_iff (a b : Variables) :
    a.IsSubsetOf b = true ↔ ∀ w, a.include w = true → b.include w = true := by
  simp [Variables.IsSubsetOf, Variables.include]

theorem Variables.size_foldl_insert_le (l : List Variable) (s : Variables) :
    (l.foldl Variables.insert s).size ≤ s.size + l.length := by
  induction l generalizing s with
  | nil => simp
  | cons v l ih =>
    rw [List.foldl_cons, List.length_cons]
    have h1 := ih (s.insert v)
    have h2 := Variables.size_insert s v
    split at h2 <;> omega

theorem Variables.size_foldl_insert_eq_iff (l : List Variable) (s : Variables) :
    (l.foldl Variables.insert s).size = s.size + l.length
      ↔ l.Nodup ∧ ∀ v ∈ l, s.include v = false := by
  induction l generalizing s with
  | nil => simp
  | cons v l ih =>
    rw [List.foldl_cons, List.length_cons, List.nodup_cons]
    have h1 := Variables.size_foldl_insert_le l (s.insert v)
    have h2 := Variables.size_insert s v
    by_cases hv : s.include v = true
    · rw [if_pos hv] at h2
      constructor
      · intro h; omega
      · rintro ⟨_, h⟩
        have := h v (List.mem_cons_self v l)
        rw [hv] at this; cases this
    · rw [if_neg hv] at h2
      have h3 := ih (s.insert v)
      rw [h2] at h3
      have e : s.size + (l.length + 1) = s.size + 1 + l.length := by omega
      rw [e, h3]
      constructor
      · rintro ⟨hn, hall⟩
        refine ⟨⟨?_, hn⟩, ?_⟩
        · intro hmem
          have := hall v hmem
          rw [Bool.eq_false_iff] at this
          exact this ((Variables.include_insert s v v).2 (Or.inl rfl))
        · intro w hw
          rcases List.mem_cons.1 hw with rfl | hw
          · simpa using hv
          · have := hall w hw
            rw [Bool.eq_false_iff] at this ⊢
            intro hc
            exact this ((Variables.include_insert s v w).2 (Or.inr hc))
      · rintro ⟨⟨hnm, hn⟩, hall⟩
        refine ⟨hn, ?_⟩
        intro w hw
        rw [Bool.eq_false_iff]
        intro hc
        rcases (Variables.include_insert s v w).1 hc with rfl | hc
        · exact hnm hw
        · have := hall w (List.mem_cons_of_mem _ hw)
          rw [hc] at this; cases this

theorem Variables.size_ofVector_eq_iff (l : List Variable) :
    (Variables.ofVector l).size = l.length ↔ l.Nodup := by
  have h := Variables.size_foldl_insert_eq_iff l Variables.empty
  simp only [Variables.include_empty, implies_true, and_true] at h
  rw [← h]
  simp [Variables.ofVector, Variables.size, Variables.empty]



/-! ## The constructor -/

theorem include_allVars (a : Args) (v : Variable) :
    (allVars a).include v = true
      ↔ a.time_var = some v ∨ v ∈ a.state_vars ∨ v ∈ a.input_vars := by
  unfold allVars
  cases h : a.time_var with
  | none => simp [Variables.include_ofVector]
  | some t =>
    simp only [Variables.include_insert, Variables.include_ofVector, List.mem_append,
      Option.some.injEq]
    constructor
    · rintro (rfl | h) <;> tauto
    · rintro (rfl | h) <;> tauto

theorem DRAKE_DEMAND_eq_ok_iff (line : Nat) (c : Bool) :
    DRAKE_DEMAND line c = .ok () ↔ c = true := by
  unfold DRAKE_DEMAND; cases c <;> simp

theorem DRAKE_DEMAND_cases (line : Nat) (c : Bool) :
    (c = true ∧ DRAKE_DEMAND line c = .ok ())
      ∨ (c = false ∧ DRAKE_DEMAND line c = .error (.demand line)) := by
  unfold DRAKE_DEMAND; cases c <;> simp

theorem assertDeclared_cases (armed : Bool) (line : Nat) (S : Variables)
    (l : List Expression) :
    assertDeclared armed line S l = .ok ()
      ∨ assertDeclared armed line S l = .error (.assertion line) := by
  induction l with
  | nil => simp [assertDeclared]
  | cons e l ih =>
    unfold assertDeclared DRAKE_ASSERT
    split
    · rename_i f h
      split at h
      · simp at h; simp [h]
      · simp at h
    · exact ih

theorem assertDeclared_eq_ok_iff (armed : Bool) (line : Nat) (S : Variables)
    (l : List Expression) :
    assertDeclared armed line S l = .ok ()
      ↔ (armed = true → ∀ e ∈ l, e.GetVariables.IsSubsetOf S = true) := by
  induction l with
  | nil => simp [assertDeclared]
  | cons e l ih =>
    unfold assertDeclared DRAKE_ASSERT
    cases armed <;> cases h : e.GetVariables.IsSubsetOf S <;> simp [h] at ih ⊢ <;> exact ih

/-- The record the constructor returns when every check passes. -/
theorem construct_eq_ok_iff (armed : Bool) (a : Args) (sys : SymbolicVectorSystem) :
    SymbolicVectorSystem.construct armed a = .ok sys ↔
      (0 < a.dynamics.length ∨ 0 < a.output.length) ∧ 0 ≤ a.time_period ∧
      (a.state_vars ++ a.input_vars).Nodup ∧
      (0 < a.state_vars.length → assertDeclared armed 45 (allVars a) a.dynamics = .ok ()) ∧
      (0 < a.output.length → assertDeclared armed 56 (allVars a) a.output = .ok ()) ∧
      sys = { time_var_ := a.time_var, state_vars_ := a.state_vars,
              input_vars_ := a.input_vars, dynamics_ := a.dynamics, output_ := a.output,
              time_period_ := a.time_period, env_ := envTemplate (allVars a),
              leaf := declarations a } := by
  constructor
  · intro h
    unfold SymbolicVectorSystem.construct at h
    split at h
    · cases h
    rename_i h1
    split at h
    · cases h
    rename_i h2
    split at h
    · cases h
    rename_i h3
    split at h
    · cases h
    rename_i h4
    split at h
    · cases h
    rename_i h5
    have c1 := (DRAKE_DEMAND_eq_ok_iff _ _).1 h1
    have c2 := (DRAKE_DEMAND_eq_ok_iff _ _).1 h2
    have c3 := (DRAKE_DEMAND_eq_ok_iff _ _).1 h3
    simp only [Bool.or_eq_true, decide_eq_true_eq, gt_iff_lt, ge_iff_le] at c1 c2
    simp only [decide_eq_true_eq, Variables.size_ofVector_eq_iff] at c3
    refine ⟨c1, c2, c3, ?_, ?_, ?_⟩
    · intro hs; rw [if_pos hs] at h4; exact h4
    · intro ho; rw [if_pos ho] at h5; exact h5
    · injection h with h; exact h.symm
  · rintro ⟨c1, c2, c3, c4, c5, rfl⟩
    have h1 : DRAKE_DEMAND 27
        (decide (a.dynamics.length > 0) || decide (a.output.length > 0)) = .ok () := by
      rw [DRAKE_DEMAND_eq_ok_iff]; simpa using c1
    have h2 : DRAKE_DEMAND 28 (decide (a.time_period ≥ 0)) = .ok () := by
      rw [DRAKE_DEMAND_eq_ok_iff]; simpa using c2
    have h3 : DRAKE_DEMAND 35
        (decide ((Variables.ofVector (a.state_vars ++ a.input_vars)).size
          = (a.state_vars ++ a.input_vars).length)) = .ok () := by
      rw [DRAKE_DEMAND_eq_ok_iff, decide_eq_true_eq, Variables.size_ofVector_eq_iff]
      exact c3
    have h4 : (if a.state_vars.length > 0 then assertDeclared armed 45 (allVars a) a.dynamics
        else .ok ()) = .ok () := by
      split
      · rename_i hs; exact c4 hs
      · rfl
    have h5 : (if a.output.length > 0 then assertDeclared armed 56 (allVars a) a.output
        else .ok ()) = .ok () := by
      split
      · rename_i ho; exact c5 ho
      · rfl
    unfold SymbolicVectorSystem.construct
    rw [h1, h2, h3, h4, h5]

theorem construct_cases (armed : Bool) (a : Args) :
    (∃ sys, SymbolicVectorSystem.construct armed a = .ok sys)
      ∨ (∃ f, SymbolicVectorSystem.construct armed a = .error f) := by
  cases h : SymbolicVectorSystem.construct armed a with
  | ok s => exact Or.inl ⟨s, rfl⟩
  | error f => exact Or.inr ⟨f, rfl⟩


/-! ## Environments -/

theorem lookup_cons_eq (l : List (Variable × ℚ)) (k w : Variable) (y : ℚ) :
    List.lookup w ((k, y) :: l) = if w = k then some y else List.lookup w l := by
  rw [List.lookup_cons]
  by_cases h : w = k
  · subst h; simp
  · have hb : (w == k) = false := by simpa using h
    rw [hb, if_neg h]

theorem lookup_append_singleton (l : List (Variable × ℚ)) (v w : Variable) (x : ℚ)
    (h : l.lookup v = none) :
    (l ++ [(v, x)]).lookup w = if w = v then some x else l.lookup w := by
  induction l with
  | nil =>
    rw [List.nil_append, lookup_cons_eq]
  | cons p l ih =>
    obtain ⟨k, y⟩ := p
    rw [lookup_cons_eq] at h
    rw [List.cons_append, lookup_cons_eq, lookup_cons_eq]
    by_cases hvk : v = k
    · rw [if_pos hvk] at h; cases h
    · rw [if_neg hvk] at h
      rw [ih h]
      by_cases hwk : w = k
      · have : ¬ w = v := fun e => hvk (e.symm.trans hwk)
        rw [if_pos hwk, if_neg this, if_pos hwk]
      · rw [if_neg hwk, if_neg hwk]

theorem lookup_replace (l : List (Variable × ℚ)) (v w : Variable) (x : ℚ)
    (h : (l.lookup v).isSome = true) :
    (Environment.replace v x l).lookup w = if w = v then some x else l.lookup w := by
  induction l with
  | nil => simp at h
  | cons p l ih =>
    obtain ⟨k, y⟩ := p
    rw [lookup_cons_eq] at h
    unfold Environment.replace
    by_cases hkv : k = v
    · subst hkv
      rw [if_pos rfl, lookup_cons_eq, lookup_cons_eq]
      by_cases hwk : w = k
      · rw [if_pos hwk, if_pos hwk]
      · rw [if_neg hwk, if_neg hwk, if_neg hwk]
    · have hvk : ¬ v = k := fun e => hkv e.symm
      rw [if_neg hvk] at h
      rw [if_neg hkv, lookup_cons_eq, lookup_cons_eq, ih h]
      by_cases hwk : w = k
      · have : ¬ w = v := fun e => hvk (e.symm.trans hwk)
        rw [if_pos hwk, if_neg this, if_pos hwk]
      · rw [if_neg hwk, if_neg hwk]

theorem Environment.find_assign (env : Environment) (v w : Variable) (x : ℚ) :
    (env.assign v x).find w = if w = v then some x else env.find w := by
  unfold Environment.assign
  split
  · rename_i y hy
    unfold Environment.find at hy ⊢
    exact lookup_replace _ _ _ _ (by rw [hy]; rfl)
  · rename_i hy
    unfold Environment.find at hy ⊢
    exact lookup_append_singleton _ _ _ _ hy

/-! ## Expressions -/

theorem Expression.Evaluate_congr (e : Expression) (env1 env2 : Environment)
    (h : ∀ v, e.GetVariables.include v = true → env1.find v = env2.find v) :
    e.Evaluate env1 = e.Evaluate env2 := by
  induction e with
  | var v =>
    have := h v (by
      unfold Expression.GetVariables
      exact (Variables.include_insert _ _ _).2 (Or.inl rfl))
    unfold Expression.Evaluate
    rw [this]
  | const c => rfl
  | neg e ih =>
    unfold Expression.Evaluate
    rw [ih (fun v hv => h v (by unfold Expression.GetVariables; exact hv))]
  | add a b iha ihb =>
    unfold Expression.Evaluate
    rw [iha (fun v hv => h v (by
          unfold Expression.GetVariables
          exact (Variables.include_union _ _ _).2 (Or.inl hv))),
      ihb (fun v hv => h v (by
          unfold Expression.GetVariables
          exact (Variables.include_union _ _ _).2 (Or.inr hv)))]
  | mul a b iha ihb =>
    unfold Expression.Evaluate
    rw [iha (fun v hv => h v (by
          unfold Expression.GetVariables
          exact (Variables.include_union _ _ _).2 (Or.inl hv))),
      ihb (fun v hv => h v (by
          unfold Expression.GetVariables
          exact (Variables.include_union _ _ _).2 (Or.inr hv)))]

theorem Expression.Evaluate_ok (e : Expression) (env : Environment)
    (h : ∀ v, e.GetVariables.include v = true → (env.find v).isSome = true) :
    ∃ y, e.Evaluate env = .ok y := by
  induction e with
  | var v =>
    have := h v (by
      unfold Expression.GetVariables
      exact (Variables.include_insert _ _ _).2 (Or.inl rfl))
    unfold Expression.Evaluate
    cases hf : env.find v with
    | none => rw [hf] at this; cases this
    | some x => exact ⟨x, rfl⟩
  | const c => exact ⟨c, rfl⟩
  | neg e ih =>
    obtain ⟨y, hy⟩ := ih (fun v hv => h v (by unfold Expression.GetVariables; exact hv))
    unfold Expression.Evaluate
    rw [hy]
    exact ⟨-y, rfl⟩
  | add a b iha ihb =>
    obtain ⟨y1, hy1⟩ := iha (fun v hv => h v (by
          unfold Expression.GetVariables
          exact (Variables.include_union _ _ _).2 (Or.inl hv)))
    obtain ⟨y2, hy2⟩ := ihb (fun v hv => h v (by
          unfold Expression.GetVariables
          exact (Variables.include_union _ _ _).2 (Or.inr hv)))
    unfold Expression.Evaluate
    rw [hy1, hy2]
    exact ⟨y1 + y2, rfl⟩
  | mul a b iha ihb =>
    obtain ⟨y1, hy1⟩ := iha (fun v hv => h v (by
          unfold Expression.GetVariables
          exact (Variables.include_union _ _ _).2 (Or.inl hv)))
    obtain ⟨y2, hy2⟩ := ihb (fun v hv => h v (by
          unfold Expression.GetVariables
          exact (Variables.include_union _ _ _).2 (Or.inr hv)))
    unfold Expression.Evaluate
    rw [hy1, hy2]
    exact ⟨y1 * y2, rfl⟩



/-! ## The loops -/

theorem getElem?_inj_of_nodup {vars : List Variable} (hn : vars.Nodup) {i j : Nat}
    {v : Variable} (hi : vars[i]? = some v) (hj : vars[j]? = some v) : i = j := by
  obtain ⟨hi1, hi2⟩ := List.getElem?_eq_some.1 hi
  obtain ⟨hj1, hj2⟩ := List.getElem?_eq_some.1 hj
  exact (List.Nodup.getElem_inj_iff hn).1 (hi2.trans hj2.symm)

theorem bindVariables_spec (vars : List Variable) (values : List ℚ) (hn : vars.Nodup)
    (is : List Nat) (his : is.Nodup)
    (hr : ∀ i ∈ is, i < vars.length ∧ i < values.length) (env : Environment) :
    ∃ env', bindVariables vars values is env = .ok env'
      ∧ (∀ w, (∀ i ∈ is, vars[i]? ≠ some w) → env'.find w = env.find w)
      ∧ (∀ i ∈ is, ∀ v, vars[i]? = some v → env'.find v = values[i]?) := by
  induction is generalizing env with
  | nil => exact ⟨env, rfl, fun _ _ => rfl, fun i hi => by cases hi⟩
  | cons i is ih =>
    obtain ⟨hi1, hi2⟩ := hr i (List.mem_cons_self _ _)
    obtain ⟨hni, his'⟩ := List.nodup_cons.1 his
    have hv : vars[i]? = some vars[i] := List.getElem?_eq_getElem hi1
    have hx : values[i]? = some values[i] := List.getElem?_eq_getElem hi2
    obtain ⟨env', h1, h2, h3⟩ := ih his' (fun j hj => hr j (List.mem_cons_of_mem _ hj))
      (env.assign vars[i] values[i])
    refine ⟨env', ?_, ?_, ?_⟩
    · unfold bindVariables
      rw [hv, hx]
      exact h1
    · intro w hw
      rw [h2 w (fun j hj => hw j (List.mem_cons_of_mem _ hj)), Environment.find_assign]
      have : ¬ w = vars[i] := by
        intro e
        exact hw i (List.mem_cons_self _ _) (by rw [hv, e])
      rw [if_neg this]
    · intro j hj v hjv
      rcases List.mem_cons.1 hj with rfl | hj
      · have e : v = vars[j] := by rw [hv] at hjv; exact (Option.some.inj hjv).symm
        subst e
        rw [h2 _ (fun k hk hkv => hni (by
          have := getElem?_inj_of_nodup hn hkv hv
          rw [← this]; exact hk)), Environment.find_assign, if_pos rfl, hx]
      · exact h3 j hj v hjv

theorem nodup_range_and_bounds (n m : Nat) (h : n ≤ m) :
    (List.range n).Nodup ∧ ∀ i ∈ List.range n, i < n ∧ i < m := by
  refine ⟨List.nodup_range n, fun i hi => ?_⟩
  have := List.mem_range.1 hi
  omega

theorem evaluateInto_spec (exprs : List Expression) (env : Environment)
    (is : List Nat) (his : is.Nodup) (vec : List ℚ)
    (hr : ∀ i ∈ is, i < exprs.length ∧ i < vec.length)
    (hev : ∀ e ∈ exprs, ∃ y, e.Evaluate env = .ok y) :
    ∃ vec', evaluateInto exprs env is vec = (.ok (), vec')
      ∧ vec'.length = vec.length
      ∧ (∀ j, j ∉ is → vec'[j]? = vec[j]?)
      ∧ (∀ i ∈ is, ∀ e, exprs[i]? = some e →
          ∃ y, e.Evaluate env = .ok y ∧ vec'[i]? = some y) := by
  induction is generalizing vec with
  | nil => exact ⟨vec, rfl, rfl, fun _ _ => rfl, fun i hi => by cases hi⟩
  | cons i is ih =>
    obtain ⟨hi1, hi2⟩ := hr i (List.mem_cons_self _ _)
    obtain ⟨hni, his'⟩ := List.nodup_cons.1 his
    have he : exprs[i]? = some exprs[i] := List.getElem?_eq_getElem hi1
    obtain ⟨y, hy⟩ := hev exprs[i] (List.getElem_mem _)
    have hset : SetAtIndex vec i y = .ok (vec.set i y) := by
      unfold SetAtIndex; rw [if_pos hi2]
    obtain ⟨vec', h1, h2, h3, h4⟩ := ih his' (vec.set i y)
      (fun j hj => by
        have := hr j (List.mem_cons_of_mem _ hj)
        rw [List.length_set]; exact this)
    refine ⟨vec', ?_, ?_, ?_, ?_⟩
    · unfold evaluateInto
      rw [he]
      simp only [hy, hset]
      exact h1
    · rw [h2, List.length_set]
    · intro j hj
      have hji : j ≠ i := fun e => hj (by rw [e]; exact List.mem_cons_self _ _)
      have hj' : j ∉ is := fun e => hj (List.mem_cons_of_mem _ e)
      rw [h3 j hj', List.getElem?_set_ne (Ne.symm hji)]
    · intro j hj e hje
      rcases List.mem_cons.1 hj with rfl | hj
      · rw [he] at hje
        have e' := Option.some.inj hje
        subst e'
        refine ⟨y, hy, ?_⟩
        rw [h3 j hni, List.getElem?_set_self hi2]
      · exact h4 j hj e hje

/-! ## The binder -/

theorem declarations_input_sum (a : Args) :
    (declarations a).input_ports.sum = a.input_vars.length := by
  unfold declarations
  by_cases hi : a.input_vars.length > 0 <;> by_cases hs : a.state_vars.length > 0 <;>
    by_cases hp : a.time_period = 0 <;> by_cases ho : a.output.length > 0 <;>
    simp [hi, hs, hp, ho] <;> omega

theorem declarations_continuous_sum (a : Args) :
    (declarations a).continuous_states.sum
      = if a.time_period = 0 then a.state_vars.length else 0 := by
  unfold declarations
  by_cases hi : a.input_vars.length > 0 <;> by_cases hs : a.state_vars.length > 0 <;>
    by_cases hp : a.time_period = 0 <;> by_cases ho : a.output.length > 0 <;>
    simp [hi, hs, hp, ho] <;> omega

theorem declarations_discrete_sum (a : Args) :
    (declarations a).discrete_states.sum
      = if a.time_period = 0 then 0 else a.state_vars.length := by
  unfold declarations
  by_cases hi : a.input_vars.length > 0 <;> by_cases hs : a.state_vars.length > 0 <;>
    by_cases hp : a.time_period = 0 <;> by_cases ho : a.output.length > 0 <;>
    simp [hi, hs, hp, ho] <;> omega

/-- In a context allocated for a constructed system the input value has one
component per input variable and the state vector read by the binder has one
component per state variable. -/
theorem allocated_lengths (armed : Bool) (a : Args) (sys : SymbolicVectorSystem)
    (h : SymbolicVectorSystem.construct armed a = .ok sys) (context : Context)
    (hc : context.AllocatedFor sys) :
    context.input.length = sys.input_vars_.length
      ∧ (sys.stateVector context).length = sys.state_vars_.length := by
  rw [construct_eq_ok_iff] at h
  obtain ⟨_, c2, _, _, _, rfl⟩ := h
  obtain ⟨h1, h2, h3⟩ := hc
  simp only [declarations_input_sum, declarations_continuous_sum,
    declarations_discrete_sum] at h1 h2 h3
  refine ⟨h3, ?_⟩
  unfold SymbolicVectorSystem.stateVector
  simp only
  by_cases hp : a.time_period = 0
  · rw [if_pos hp] at h1
    rw [if_neg (by rw [hp]; exact lt_irrefl _)]
    exact h1
  · rw [if_neg hp] at h2
    rw [if_pos (lt_of_le_of_ne c2 (Ne.symm hp))]
    exact h2

theorem populate_spec (armed : Bool) (a : Args) (sys : SymbolicVectorSystem)
    (h : SymbolicVectorSystem.construct armed a = .ok sys) (context : Context)
    (hc : context.AllocatedFor sys) (env0 : Environment) :
    ∃ env, sys.PopulateEnvironmentFromContext context env0 = .ok env
      ∧ (∀ (k : Nat) (v : Variable), sys.input_vars_[k]? = some v →
          env.find v = context.input[k]?)
      ∧ (∀ (k : Nat) (v : Variable), sys.state_vars_[k]? = some v →
          env.find v = (sys.stateVector context)[k]?)
      ∧ (∀ t, sys.time_var_ = some t → t ∉ sys.state_vars_ → t ∉ sys.input_vars_ →
          env.find t = some context.time)
      ∧ (∀ w, sys.time_var_ ≠ some w → w ∉ sys.state_vars_ → w ∉ sys.input_vars_ →
          env.find w = env0.find w) := by
  obtain ⟨hlen_i, hlen_s⟩ := allocated_lengths armed a sys h context hc
  have hnd : (sys.state_vars_ ++ sys.input_vars_).Nodup := by
    rw [construct_eq_ok_iff] at h
    obtain ⟨_, _, c3, _, _, rfl⟩ := h
    exact c3
  obtain ⟨hns, hni, hdisj⟩ := List.nodup_append.1 hnd
  -- after the time variable
  have hTt : ∀ t, sys.time_var_ = some t →
      (sys.bindTime context env0).find t = some context.time := by
    intro t ht
    unfold SymbolicVectorSystem.bindTime
    rw [ht]
    simp only [Environment.find_assign, if_pos]
  have hTo : ∀ w, sys.time_var_ ≠ some w →
      (sys.bindTime context env0).find w = env0.find w := by
    intro w hw
    unfold SymbolicVectorSystem.bindTime
    cases ht : sys.time_var_ with
    | none => rfl
    | some t =>
      simp only
      rw [Environment.find_assign, if_neg]
      intro e
      exact hw (by rw [ht, e])
  -- after the state variables
  obtain ⟨envS, hS, hS1, hS2⟩ : ∃ envS : Environment,
      sys.bindState context (sys.bindTime context env0) = .ok envS
      ∧ (∀ w, w ∉ sys.state_vars_ → envS.find w = (sys.bindTime context env0).find w)
      ∧ (∀ (k : Nat) (v : Variable), sys.state_vars_[k]? = some v →
          envS.find v = (sys.stateVector context)[k]?) := by
    obtain ⟨r1, r2⟩ := nodup_range_and_bounds sys.state_vars_.length
      (sys.stateVector context).length (le_of_eq hlen_s.symm)
    obtain ⟨env', b1, b2, b3⟩ := bindVariables_spec sys.state_vars_
      (sys.stateVector context) hns _ r1 r2 (sys.bindTime context env0)
    unfold SymbolicVectorSystem.bindState
    by_cases hs : sys.state_vars_.length > 0
    · rw [if_pos hs]
      refine ⟨env', b1, ?_, ?_⟩
      · intro w hw
        exact b2 w (fun i _ hi => hw (List.getElem?_mem hi))
      · intro k v hk
        exact b3 k (List.mem_range.2 (List.getElem?_eq_some.1 hk).1) v hk
    · rw [if_neg hs]
      have hnil : sys.state_vars_ = [] := List.length_eq_zero.1 (by omega)
      refine ⟨_, rfl, fun _ _ => rfl, ?_⟩
      intro k v hk
      rw [hnil] at hk
      simp at hk
  -- after the input variables
  obtain ⟨envI, hI, hI1, hI2⟩ : ∃ envI : Environment,
      sys.bindInput context envS = .ok envI
      ∧ (∀ w, w ∉ sys.input_vars_ → envI.find w = envS.find w)
      ∧ (∀ (k : Nat) (v : Variable), sys.input_vars_[k]? = some v →
          envI.find v = context.input[k]?) := by
    obtain ⟨r1, r2⟩ := nodup_range_and_bounds sys.input_vars_.length
      context.input.length (le_of_eq hlen_i.symm)
    obtain ⟨env', b1, b2, b3⟩ := bindVariables_spec sys.input_vars_
      context.input hni _ r1 r2 envS
    unfold SymbolicVectorSystem.bindInput
    by_cases hs : sys.input_vars_.length > 0
    · rw [if_pos hs]
      refine ⟨env', b1, ?_, ?_⟩
      · intro w hw
        exact b2 w (fun i _ hi => hw (List.getElem?_mem hi))
      · intro k v hk
        exact b3 k (List.mem_range.2 (List.getElem?_eq_some.1 hk).1) v hk
    · rw [if_neg hs]
      have hnil : sys.input_vars_ = [] := List.length_eq_zero.1 (by omega)
      refine ⟨envS, rfl, fun _ _ => rfl, ?_⟩
      intro k v hk
      rw [hnil] at hk
      simp at hk
  refine ⟨envI, ?_, hI2, ?_, ?_, ?_⟩
  · unfold SymbolicVectorSystem.PopulateEnvironmentFromContext
    rw [hS]
    exact hI
  · intro k v hk
    have hv : v ∈ sys.state_vars_ := List.getElem?_mem hk
    rw [hI1 v (fun hvi => hdisj hv hvi)]
    exact hS2 k v hk
  · intro t ht hts hti
    rw [hI1 t hti, hS1 t hts]
    exact hTt t ht
  · intro w hw hws hwi
    rw [hI1 w hwi, hS1 w hws]
    exact hTo w hw

theorem assertDeclared_of_hasUndeclared (a : Args) (line : Nat) (exprs : List Expression)
    (h : a.HasUndeclared exprs) :
    assertDeclared true line (allVars a) exprs = .error (.assertion line) := by
  rcases assertDeclared_cases true line (allVars a) exprs with h1 | h1
  · exfalso
    obtain ⟨e, he, v, hv, hd⟩ := h
    have h2 := (assertDeclared_eq_ok_iff _ _ _ _).1 h1 rfl e he
    rw [Variables.isSubsetOf_iff] at h2
    exact hd ((include_allVars a v).1 (h2 v ((Variables.include_iff_mem _ _).2 hv)))
  · exact h1

theorem discreteScenario_constructed :
    ∃ sys, SymbolicVectorSystem.construct true
      ⟨none, [Scenario.x], [], [.add (.var Scenario.x) (.const 1)], [], 1 / 10⟩ = .ok sys :=
  ⟨_, (construct_eq_ok_iff _ _ _).2
    ⟨Or.inl (by decide), by norm_num, by decide, fun _ => by decide, fun _ => by decide, rfl⟩⟩

/-! ## The evaluation callbacks -/

/-- After the binder has run on a context allocated for a constructed system,
every declared variable has a value, and every environment that binds time,
state and input as the context gives them agrees with it on the declared
variables. -/
theorem populate_declared (armed : Bool) (a : Args) (sys : SymbolicVectorSystem)
    (h : SymbolicVectorSystem.construct armed a = .ok sys) (context : Context)
    (hc : context.AllocatedFor sys) (env0 : Environment) :
    ∃ env, sys.PopulateEnvironmentFromContext context env0 = .ok env
      ∧ (∀ v, a.Declares v → (env.find v).isSome = true)
      ∧ (∀ env' : Environment, env'.BindsContext sys context →
          ∀ v, a.Declares v → env'.find v = env.find v) := by
  obtain ⟨hlen_i, hlen_s⟩ := allocated_lengths armed a sys h context hc
  obtain ⟨env, p0, p1, p2, p3, _⟩ := populate_spec armed a sys h context hc env0
  have ha : sys.time_var_ = a.time_var ∧ sys.state_vars_ = a.state_vars
      ∧ sys.input_vars_ = a.input_vars := by
    rw [construct_eq_ok_iff] at h
    obtain ⟨_, _, _, _, _, rfl⟩ := h
    exact ⟨rfl, rfl, rfl⟩
  obtain ⟨ha1, ha2, ha3⟩ := ha
  -- the three ways of being declared, most recent write first
  have key : ∀ v, a.Declares v →
      (∃ (k : Nat) (x : ℚ), sys.input_vars_[k]? = some v ∧ context.input[k]? = some x
          ∧ env.find v = some x)
      ∨ (∃ (k : Nat) (x : ℚ), sys.state_vars_[k]? = some v
          ∧ (sys.stateVector context)[k]? = some x ∧ env.find v = some x)
      ∨ (sys.time_var_ = some v ∧ env.find v = some context.time) := by
    intro v hv
    by_cases hi : v ∈ sys.input_vars_
    · left
      obtain ⟨k, hk⟩ := List.mem_iff_getElem?.1 hi
      have hkl : k < context.input.length := by
        rw [hlen_i]; exact (List.getElem?_eq_some.1 hk).1
      exact ⟨k, context.input[k], hk, List.getElem?_eq_getElem hkl, by
        rw [p1 k v hk, List.getElem?_eq_getElem hkl]⟩
    · by_cases hs : v ∈ sys.state_vars_
      · right; left
        obtain ⟨k, hk⟩ := List.mem_iff_getElem?.1 hs
        have hkl : k < (sys.stateVector context).length := by
          rw [hlen_s]; exact (List.getElem?_eq_some.1 hk).1
        exact ⟨k, (sys.stateVector context)[k], hk, List.getElem?_eq_getElem hkl, by
          rw [p2 k v hk, List.getElem?_eq_getElem hkl]⟩
      · right; right
        have ht : sys.time_var_ = some v := by
          rcases hv with hv | hv | hv
          · rw [ha1]; exact hv
          · rw [ha2] at hs; exact absurd hv hs
          · rw [ha3] at hi; exact absurd hv hi
        exact ⟨ht, p3 v ht hs hi⟩
  refine ⟨env, p0, ?_, ?_⟩
  · intro v hv
    rcases key v hv with ⟨_, _, _, _, e⟩ | ⟨_, _, _, _, e⟩ | ⟨_, e⟩ <;> rw [e] <;> rfl
  · rintro env' ⟨b1, b2, b3⟩ v hv
    rcases key v hv with ⟨k, x, h1, h2, e⟩ | ⟨k, x, h1, h2, e⟩ | ⟨h1, e⟩
    · rw [e]; exact b3 k v x h1 h2
    · rw [e]; exact b2 k v x h1 h2
    · rw [e]; exact b1 v h1

/-- The evaluation loop of a callback, run on expressions that refer to
declared variables only, under an environment in which every declared
variable has a value. -/
theorem evaluateInto_declared (a : Args) (exprs : List Expression) (env : Environment)
    (hd : ∀ e ∈ exprs, e.GetVariables.IsSubsetOf (allVars a) = true)
    (hb : ∀ v, a.Declares v → (env.find v).isSome = true)
    (vec : List ℚ) (hlen : exprs.length ≤ vec.length) :
    ∃ result, evaluateInto exprs env (List.range exprs.length) vec = (.ok (), result)
      ∧ result.length = vec.length
      ∧ (∀ (i : Nat) (e : Expression), exprs[i]? = some e →
          ∃ y, e.Evaluate env = .ok y ∧ result[i]? = some y)
      ∧ (∀ i : Nat, exprs.length ≤ i → result[i]? = vec[i]?) := by
  obtain ⟨r1, r2⟩ := nodup_range_and_bounds exprs.length vec.length hlen
  have hev : ∀ e ∈ exprs, ∃ y, e.Evaluate env = .ok y := by
    intro e he
    apply Expression.Evaluate_ok
    intro v hv
    exact hb v ((include_allVars a v).1 ((Variables.isSubsetOf_iff _ _).1 (hd e he) v hv))
  obtain ⟨result, e1, e2, e3, e4⟩ := evaluateInto_spec exprs env _ r1 vec r2 hev
  refine ⟨result, e1, e2, ?_, ?_⟩
  · intro i e hi
    exact e4 i (List.mem_range.2 (List.getElem?_eq_some.1 hi).1) e hi
  · intro i hi
    exact e3 i (fun hm => by have := List.mem_range.1 hm; omega)

/-- Environments that agree on the declared variables give the same value to
an expression that refers to declared variables only. -/
theorem evaluate_agree (a : Args) (e : Expression) (env env' : Environment)
    (hd : e.GetVariables.IsSubsetOf (allVars a) = true)
    (hag : ∀ v, a.Declares v → env'.find v = env.find v) :
    e.Evaluate env' = e.Evaluate env := by
  apply Expression.Evaluate_congr
  intro v hv
  exact hag v ((include_allVars a v).1 ((Variables.isSubsetOf_iff _ _).1 hd v hv))


/-! ## The feedthrough query -/

/-- The inner loop, run over indices that end with `input_vars_.size()`, never
falls through: it returns true, or it ends in an out-of-range read, of
`output_[i]` or of `input_vars_[input_vars_.size()]`. -/
theorem feedthroughInner_ends (sys : SymbolicVectorSystem) (i : Nat) (js : List Nat)
    (hm : sys.input_vars_.length ∈ js) (hle : ∀ j ∈ js, j ≤ sys.input_vars_.length) :
    (feedthroughInner sys i js).flow = .returned (some true)
      ∨ ((feedthroughInner sys i js).flow = .fault .outOfRange
        ∧ ((sys.output_.length ≤ i ∧ Access.output i ∈ (feedthroughInner sys i js).reads)
          ∨ Access.input_vars sys.input_vars_.length ∈ (feedthroughInner sys i js).reads)) := by
  induction js with
  | nil => cases hm
  | cons j js ih =>
    unfold feedthroughInner
    cases ho : sys.output_[i]? with
    | none =>
      right
      exact ⟨rfl, Or.inl ⟨List.getElem?_eq_none_iff.1 ho, List.mem_singleton.2 rfl⟩⟩
    | some e =>
      cases hi : sys.input_vars_[j]? with
      | none =>
        right
        have h1 := List.getElem?_eq_none_iff.1 hi
        have h2 := hle j (List.mem_cons_self _ _)
        have hj : j = sys.input_vars_.length := le_antisymm h2 h1
        refine ⟨rfl, Or.inr ?_⟩
        simp only [List.mem_cons, hj]
        simp
      | some v =>
        simp only
        by_cases hinc : e.GetVariables.include v = true
        · left
          rw [if_pos hinc]
        · rw [if_neg hinc]
          have hjlt : j < sys.input_vars_.length := (List.getElem?_eq_some.1 hi).1
          have hm' : sys.input_vars_.length ∈ js := by
            rcases List.mem_cons.1 hm with h | h
            · omega
            · exact h
          rcases ih hm' (fun k hk => hle k (List.mem_cons_of_mem _ hk)) with h | ⟨h1, h2⟩
          · left; exact h
          · right
            refine ⟨h1, ?_⟩
            rcases h2 with ⟨h3, h4⟩ | h4
            · exact Or.inl ⟨h3, List.mem_append_right _ h4⟩
            · exact Or.inr (List.mem_append_right _ h4)

theorem feedthroughInner_range_ends (sys : SymbolicVectorSystem) (i : Nat) :
    (feedthroughInner sys i (List.range (sys.input_vars_.length + 1))).flow
        = .returned (some true)
      ∨ ((feedthroughInner sys i (List.range (sys.input_vars_.length + 1))).flow
          = .fault .outOfRange
        ∧ ((sys.output_.length ≤ i
            ∧ Access.output i
              ∈ (feedthroughInner sys i (List.range (sys.input_vars_.length + 1))).reads)
          ∨ Access.input_vars sys.input_vars_.length
              ∈ (feedthroughInner sys i (List.range (sys.input_vars_.length + 1))).reads)) :=
  feedthroughInner_ends sys i _ (List.mem_range.2 (Nat.lt_succ_self _))
    (fun _ hj => Nat.le_of_lt_succ (List.mem_range.1 hj))

/-- The call with both port numbers 0 is decided by the first run of the inner
loop: `i = 0` is admitted by the loop condition whatever the length of
`output_`, and the inner loop does not fall through. -/
theorem DoHasDirectFeedthrough_eq_first_row (sys : SymbolicVectorSystem) :
    sys.DoHasDirectFeedthrough 0 0
      = feedthroughInner sys 0 (List.range (sys.input_vars_.length + 1)) := by
  have hne : (feedthroughInner sys 0 (List.range (sys.input_vars_.length + 1))).flow
      ≠ .next := by
    rcases feedthroughInner_range_ends sys 0 with h | ⟨h, _⟩ <;> rw [h] <;> simp
  have houter : feedthroughOuter sys (List.range (sys.output_.length + 1))
      = feedthroughInner sys 0 (List.range (sys.input_vars_.length + 1)) := by
    rw [List.range_succ_eq_map]
    unfold feedthroughOuter
    show (match (feedthroughInner sys 0 (List.range (sys.input_vars_.length + 1))).flow with
      | .next => _
      | _ => _) = _
    split
    · rename_i h; exact absurd h hne
    · rfl
  unfold SymbolicVectorSystem.DoHasDirectFeedthrough
  simp only [DRAKE_DEMAND, decide_True, if_true]
  rw [houter]
  split
  · rename_i h; exact absurd h hne
  · rfl

/-! ## The binder, block by block -/

/-- A binding loop run over all indices of distinct variables, with at least
one value per variable: it succeeds, leaves the other variables as they were
and binds variable `k` to value `k`. -/
theorem bindVariables_range (vars : List Variable) (values : List ℚ) (hn : vars.Nodup)
    (hlen : vars.length ≤ values.length) (env : Environment) :
    ∃ env', bindVariables vars values (List.range vars.length) env = .ok env'
      ∧ (∀ w, w ∉ vars → env'.find w = env.find w)
      ∧ (∀ (k : Nat) (v : Variable), vars[k]? = some v → env'.find v = values[k]?) := by
  obtain ⟨r1, r2⟩ := nodup_range_and_bounds vars.length values.length hlen
  obtain ⟨env', b1, b2, b3⟩ := bindVariables_spec vars values hn _ r1 r2 env
  refine ⟨env', b1, ?_, ?_⟩
  · intro w hw
    exact b2 w (fun i _ hi => hw (List.getElem?_mem hi))
  · intro k v hk
    exact b3 k (List.mem_range.2 (List.getElem?_eq_some.1 hk).1) v hk

theorem bindState_spec (sys : SymbolicVectorSystem) (context : Context)
    (hn : sys.state_vars_.Nodup)
    (hlen : sys.state_vars_.length ≤ (sys.stateVector context).length) (env : Environment) :
    ∃ env', sys.bindState context env = .ok env'
      ∧ (∀ w, w ∉ sys.state_vars_ → env'.find w = env.find w)
      ∧ (∀ (k : Nat) (v : Variable), sys.state_vars_[k]? = some v →
          env'.find v = (sys.stateVector context)[k]?) := by
  unfold SymbolicVectorSystem.bindState
  by_cases hs : sys.state_vars_.length > 0
  · rw [if_pos hs]
    exact bindVariables_range _ _ hn hlen env
  · rw [if_neg hs]
    have hnil : sys.state_vars_ = [] := List.length_eq_zero.1 (by omega)
    refine ⟨env, rfl, fun _ _ => rfl, ?_⟩
    intro k v hk
    rw [hnil] at hk
    simp at hk

theorem bindInput_spec (sys : SymbolicVectorSystem) (context : Context)
    (hn : sys.input_vars_.Nodup)
    (hlen : sys.input_vars_.length ≤ context.input.length) (env : Environment) :
    ∃ env', sys.bindInput context env = .ok env'
      ∧ (∀ w, w ∉ sys.input_vars_ → env'.find w = env.find w)
      ∧ (∀ (k : Nat) (v : Variable), sys.input_vars_[k]? = some v →
          env'.find v = context.input[k]?) := by
  unfold SymbolicVectorSystem.bindInput
  by_cases hs : sys.input_vars_.length > 0
  · rw [if_pos hs]
    exact bindVariables_range _ _ hn hlen env
  · rw [if_neg hs]
    have hnil : sys.input_vars_ = [] := List.length_eq_zero.1 (by omega)
    refine ⟨env, rfl, fun _ _ => rfl, ?_⟩
    intro k v hk
    rw [hnil] at hk
    simp at hk

theorem constructed_nodup (armed : Bool) (a : Args) (sys : SymbolicVectorSystem)
    (h : SymbolicVectorSystem.construct armed a = .ok sys) :
    sys.state_vars_.Nodup ∧ sys.input_vars_.Nodup
      ∧ ∀ v, v ∈ sys.state_vars_ → v ∉ sys.input_vars_ := by
  rw [construct_eq_ok_iff] at h
  obtain ⟨_, _, c3, _, _, rfl⟩ := h
  obtain ⟨h1, h2, h3⟩ := List.nodup_append.1 c3
  exact ⟨h1, h2, fun v hv hi => h3 hv hi⟩

/-! ## The environment template -/

theorem mem_keys_iff (env : Environment) (v : Variable) :
    v ∈ env.keys ↔ (env.find v).isSome = true := by
  unfold Environment.keys Environment.find
  induction env.entries with
  | nil => simp
  | cons p l ih =>
    obtain ⟨k, y⟩ := p
    rw [List.map_cons, List.mem_cons, lookup_cons_eq, ih]
    by_cases hvk : v = k
    · simp [hvk]
    · simp [hvk]

theorem Environment.find_insert (env : Environment) (v w : Variable) (x : ℚ) :
    (env.insert v x).find w
      = if (env.find v).isSome then env.find w
        else if w = v then some x else env.find w := by
  unfold Environment.insert
  cases hv : env.find v with
  | some y => simp
  | none =>
    simp only [Option.isSome_none, Bool.false_eq_true, if_false]
    unfold Environment.find at hv ⊢
    exact lookup_append_singleton _ _ _ _ hv

theorem find_foldl_insert (l : List Variable) (env : Environment) (w : Variable) :
    (l.foldl (fun env v => env.insert v 0) env).find w
      = if (env.find w).isSome then env.find w
        else if w ∈ l then some 0 else none := by
  induction l generalizing env with
  | nil =>
    cases h : env.find w <;> simp [h]
  | cons v l ih =>
    rw [List.foldl_cons, ih, Environment.find_insert]
    by_cases hv : (env.find v).isSome = true
    · rw [if_pos hv]
      by_cases hw : (env.find w).isSome = true
      · rw [if_pos hw, if_pos hw]
      · rw [if_neg hw, if_neg hw]
        have hne : w ≠ v := fun e => hw (e ▸ hv)
        simp [hne]
    · rw [if_neg hv]
      by_cases hwv : w = v
      · subst hwv
        simp [hv]
      · rw [if_neg hwv]
        simp [hwv]

theorem entries_foldl_insert (l : List Variable) (env : Environment)
    (h0 : ∀ p ∈ env.entries, p.2 = 0) :
    ∀ p ∈ (l.foldl (fun env v => env.insert v 0) env).entries, p.2 = 0 := by
  induction l generalizing env with
  | nil => exact h0
  | cons v l ih =>
    rw [List.foldl_cons]
    apply ih
    unfold Environment.insert
    cases env.find v with
    | some y => exact h0
    | none =>
      intro p hp
      rcases List.mem_append.1 hp with hp | hp
      · exact h0 p hp
      · rw [List.mem_singleton.1 hp]

theorem find_envTemplate (s : Variables) (w : Variable) :
    (envTemplate s).find w = if s.include w then some 0 else none := by
  unfold envTemplate
  rw [find_foldl_insert]
  simp [Environment.empty, Environment.find, Variables.include]

/-- The template of a constructed system: the value of a variable is 0 if the
variable is declared, and the variable has no entry otherwise. -/
theorem find_template (armed : Bool) (a : Args) (sys : SymbolicVectorSystem)
    (h : SymbolicVectorSystem.construct armed a = .ok sys) (v : Variable) :
    (sys.time_var_ = a.time_var ∧ sys.state_vars_ = a.state_vars
        ∧ sys.input_vars_ = a.input_vars)
      ∧ sys.env_.find v = if a.Declares v then some 0 else none := by
  rw [construct_eq_ok_iff] at h
  obtain ⟨_, _, _, _, _, rfl⟩ := h
  refine ⟨⟨rfl, rfl, rfl⟩, ?_⟩
  simp only
  rw [find_envTemplate]
  by_cases hd : a.Declares v
  · rw [if_pos hd, if_pos ((include_allVars a v).2 hd)]
  · rw [if_neg hd, if_neg (fun hc => hd ((include_allVars a v).1 hc))]

/-! ## The binder keeps the keys -/

theorem keys_replace (v : Variable) (x : ℚ) (l : List (Variable × ℚ)) :
    (Environment.replace v x l).map Prod.fst = l.map Prod.fst := by
  induction l with
  | nil => rfl
  | cons p l ih =>
    obtain ⟨k, y⟩ := p
    unfold Environment.replace
    by_cases hkv : k = v
    · rw [if_pos hkv]; rfl
    · rw [if_neg hkv, List.map_cons, List.map_cons, ih]

theorem keys_assign (env : Environment) (v : Variable) (x : ℚ) (hv : v ∈ env.keys) :
    (env.assign v x).keys = env.keys := by
  have hs := (mem_keys_iff env v).1 hv
  unfold Environment.assign
  cases hf : env.find v with
  | none => rw [hf] at hs; cases hs
  | some y =>
    simp only
    exact keys_replace v x env.entries

theorem bindVariables_keys (vars : List Variable) (values : List ℚ) (is : List Nat)
    (hr : ∀ i ∈ is, i < vars.length ∧ i < values.length) (env : Environment)
    (hk : ∀ v ∈ vars, v ∈ env.keys) :
    ∃ env', bindVariables vars values is env = .ok env' ∧ env'.keys = env.keys := by
  induction is generalizing env with
  | nil => exact ⟨env, rfl, rfl⟩
  | cons i is ih =>
    obtain ⟨hi1, hi2⟩ := hr i (List.mem_cons_self _ _)
    have hv : vars[i]? = some vars[i] := List.getElem?_eq_getElem hi1
    have hx : values[i]? = some values[i] := List.getElem?_eq_getElem hi2
    have hkeys := keys_assign env vars[i] values[i] (hk _ (List.getElem_mem _))
    obtain ⟨env', h1, h2⟩ := ih (fun j hj => hr j (List.mem_cons_of_mem _ hj))
      (env.assign vars[i] values[i]) (fun v hv => by rw [hkeys]; exact hk v hv)
    refine ⟨env', ?_, by rw [h2, hkeys]⟩
    unfold bindVariables
    rw [hv, hx]
    exact h1

/-! ## The feedthrough query, exactly -/

/-- The inner loop over in-range indices `js` followed by further indices
`rest`: a match among `js` returns true after in-range reads only, and without
a match the loop goes on with `rest`. -/
theorem feedthroughInner_append (sys : SymbolicVectorSystem) (i : Nat) (e : Expression)
    (ho : sys.output_[i]? = some e) (js rest : List Nat)
    (hjs : ∀ j ∈ js, j < sys.input_vars_.length) :
    ((∃ j ∈ js, ∃ v, sys.input_vars_[j]? = some v ∧ e.GetVariables.include v = true) →
      (feedthroughInner sys i (js ++ rest)).flow = .returned (some true)
        ∧ ∀ a ∈ (feedthroughInner sys i (js ++ rest)).reads, a.inRange sys = true)
    ∧ ((¬ ∃ j ∈ js, ∃ v, sys.input_vars_[j]? = some v ∧ e.GetVariables.include v = true) →
      (feedthroughInner sys i (js ++ rest)).flow = (feedthroughInner sys i rest).flow) := by
  have hi : i < sys.output_.length := (List.getElem?_eq_some.1 ho).1
  induction js with
  | nil =>
    refine ⟨fun h => ?_, fun _ => rfl⟩
    obtain ⟨j, hj, _⟩ := h
    cases hj
  | cons j js ih =>
    have hj : j < sys.input_vars_.length := hjs j (List.mem_cons_self _ _)
    have hv : sys.input_vars_[j]? = some sys.input_vars_[j] := List.getElem?_eq_getElem hj
    obtain ⟨ih1, ih2⟩ := ih (fun k hk => hjs k (List.mem_cons_of_mem _ hk))
    rw [List.cons_append]
    simp only [feedthroughInner, ho, hv]
    by_cases hinc : e.GetVariables.include sys.input_vars_[j] = true
    · rw [if_pos hinc]
      refine ⟨fun _ => ⟨rfl, ?_⟩, fun hno => absurd ⟨j, List.mem_cons_self _ _, _, hv, hinc⟩ hno⟩
      intro a ha
      simp only [List.mem_cons, List.mem_singleton, List.not_mem_nil, or_false] at ha
      rcases ha with rfl | rfl
      · simpa [Access.inRange] using hi
      · simpa [Access.inRange] using hj
    · rw [if_neg hinc]
      have hequiv : (∃ k ∈ j :: js, ∃ v, sys.input_vars_[k]? = some v
            ∧ e.GetVariables.include v = true)
          ↔ ∃ k ∈ js, ∃ v, sys.input_vars_[k]? = some v
            ∧ e.GetVariables.include v = true := by
        constructor
        · rintro ⟨k, hk, v, hkv, hvinc⟩
          rcases List.mem_cons.1 hk with rfl | hk
          · rw [hv] at hkv
            rw [← Option.some.inj hkv] at hvinc
            exact absurd hvinc hinc
          · exact ⟨k, hk, v, hkv, hvinc⟩
        · rintro ⟨k, hk, v, hkv, hvinc⟩
          exact ⟨k, List.mem_cons_of_mem _ hk, v, hkv, hvinc⟩
      refine ⟨fun h => ?_, fun h => ?_⟩
      · obtain ⟨f1, f2⟩ := ih1 (hequiv.1 h)
        refine ⟨f1, ?_⟩
        intro a ha
        rcases List.mem_append.1 ha with ha | ha
        · simp only [List.mem_cons, List.mem_singleton, List.not_mem_nil, or_false] at ha
          rcases ha with rfl | rfl
          · simpa [Access.inRange] using hi
          · simpa [Access.inRange] using hj
        · exact f2 a ha
      · exact ih2 (fun hc => h (hequiv.2 hc))

/-! ## Faults of the callbacks -/

theorem bindVariables_fault (vars : List Variable) (values : List ℚ) (is : List Nat)
    (env : Environment) (f : Fault) (h : bindVariables vars values is env = .error f) :
    f = .outOfRange := by
  induction is generalizing env with
  | nil => cases h
  | cons i is ih =>
    unfold bindVariables at h
    split at h
    · exact ih _ h
    · injection h with h; exact h.symm

theorem populate_fault (sys : SymbolicVectorSystem) (context : Context) (env : Environment)
    (f : Fault) (h : sys.PopulateEnvironmentFromContext context env = .error f) :
    f = .outOfRange := by
  unfold SymbolicVectorSystem.PopulateEnvironmentFromContext at h
  split at h
  · rename_i f' hs
    injection h with h
    subst h
    unfold SymbolicVectorSystem.bindState at hs
    split at hs
    · exact bindVariables_fault _ _ _ _ _ hs
    · cases hs
  · unfold SymbolicVectorSystem.bindInput at h
    split at h
    · exact bindVariables_fault _ _ _ _ _ h
    · cases h

theorem Evaluate_fault (e : Expression) (env : Environment) (f : Fault)
    (h : e.Evaluate env = .error f) : f = .unboundVariable := by
  induction e with
  | var v =>
    unfold Expression.Evaluate at h
    split at h
    · cases h
    · injection h with h; exact h.symm
  | const c => cases h
  | neg e ih =>
    unfold Expression.Evaluate at h
    split at h
    · cases h
    · rename_i f' he
      injection h with h
      subst h
      exact ih he
  | add a b iha ihb =>
    unfold Expression.Evaluate at h
    split at h
    · rename_i f' he
      injection h with h
      subst h
      exact iha he
    · split at h
      · rename_i f' he
        injection h with h
        subst h
        exact ihb he
      · cases h
  | mul a b iha ihb =>
    unfold Expression.Evaluate at h
    split at h
    · rename_i f' he
      injection h with h
      subst h
      exact iha he
    · split at h
      · rename_i f' he
        injection h with h
        subst h
        exact ihb he
      · cases h

theorem evaluateInto_fault (exprs : List Expression) (env : Environment) (is : List Nat)
    (vec : List ℚ) (f : Fault) (h : (evaluateInto exprs env is vec).1 = .error f) :
    f = .outOfRange ∨ f = .unboundVariable := by
  induction is generalizing vec with
  | nil => cases h
  | cons i is ih =>
    unfold evaluateInto at h
    split at h
    · injection h with h; exact Or.inl h.symm
    · split at h
      · rename_i f' he
        injection h with h
        subst h
        exact Or.inr (Evaluate_fault _ _ _ he)
      · split at h
        · rename_i f' hs
          injection h with h
          subst h
          unfold SetAtIndex at hs
          split at hs
          · cases hs
          · injection hs with hs; exact Or.inl hs.symm
        · exact ih _ h

theorem DoCalcTimeDerivatives_demand (sys : SymbolicVectorSystem) (context : Context)
    (derivatives : List ℚ) (h : StoppedByDemand (sys.DoCalcTimeDerivatives context derivatives)) :
    sys.time_period_ ≠ 0 ∨ sys.dynamics_ = [] := by
  obtain ⟨line, hl⟩ := h
  unfold SymbolicVectorSystem.DoCalcTimeDerivatives at hl
  split at hl
  · rename_i f hd
    left
    intro hp
    rw [(DRAKE_DEMAND_eq_ok_iff _ _).2 (by simpa using hp)] at hd
    cases hd
  · split at hl
    · rename_i f hd
      right
      by_contra hne
      rw [(DRAKE_DEMAND_eq_ok_iff _ _).2 (by simpa using List.length_pos.2 hne)] at hd
      cases hd
    · split at hl
      · rename_i f hp
        have := populate_fault _ _ _ _ hp
        subst this
        cases hl
      · rcases evaluateInto_fault _ _ _ _ _ hl with h | h <;> cases h

theorem DoCalcDiscreteVariableUpdates_demand (sys : SymbolicVectorSystem) (context : Context)
    (events : List Nat) (updates : List ℚ)
    (h : StoppedByDemand (sys.DoCalcDiscreteVariableUpdates context events updates)) :
    ¬ sys.time_period_ > 0 ∨ sys.dynamics_ = [] := by
  obtain ⟨line, hl⟩ := h
  unfold SymbolicVectorSystem.DoCalcDiscreteVariableUpdates at hl
  split at hl
  · rename_i f hd
    left
    intro hp
    rw [(DRAKE_DEMAND_eq_ok_iff _ _).2 (by simpa using hp)] at hd
    cases hd
  · split at hl
    · rename_i f hd
      right
      by_contra hne
      rw [(DRAKE_DEMAND_eq_ok_iff _ _).2 (by simpa using List.length_pos.2 hne)] at hd
      cases hd
    · split at hl
      · rename_i f hp
        have := populate_fault _ _ _ _ hp
        subst this
        cases hl
      · rcases evaluateInto_fault _ _ _ _ _ hl with h | h <;> cases h

theorem DoCalcTimeDerivatives_empty (sys : SymbolicVectorSystem) (context : Context)
    (derivatives : List ℚ) (hp : sys.time_period_ = 0) (hd : sys.dynamics_ = []) :
    sys.DoCalcTimeDerivatives context derivatives = (.error (.demand 119), derivatives) := by
  unfold SymbolicVectorSystem.DoCalcTimeDerivatives
  simp [hp, hd, DRAKE_DEMAND]

theorem DoCalcDiscreteVariableUpdates_empty (sys : SymbolicVectorSystem) (context : Context)
    (events : List Nat) (updates : List ℚ) (hp : sys.time_period_ > 0)
    (hd : sys.dynamics_ = []) :
    sys.DoCalcDiscreteVariableUpdates context events updates
      = (.error (.demand 136), updates) := by
  unfold SymbolicVectorSystem.DoCalcDiscreteVariableUpdates
  simp [hp, hd, DRAKE_DEMAND]

/-! ## Declared variables and the bindings of the context -/


/-- Expressions checked by an armed `DRAKE_ASSERT` loop, or known to refer to
declared variables only, have their variables in `all_vars`. -/
theorem declared_of_checked (armed : Bool) (a : Args) (line : Nat) (exprs : List Expression)
    (hcheck : assertDeclared armed line (allVars a) exprs = .ok ())
    (hdecl : armed = true ∨ ¬ a.HasUndeclared exprs) :
    ∀ e ∈ exprs, e.GetVariables.IsSubsetOf (allVars a) = true := by
  rcases hdecl with harm | hno
  · exact (assertDeclared_eq_ok_iff _ _ _ _).1 hcheck harm
  · intro e he
    rw [Variables.isSubsetOf_iff]
    intro v hv
    rw [include_allVars]
    by_contra hnd
    exact hno ⟨e, he, v, (Variables.include_iff_mem _ _).1 hv, hnd⟩

/-- The binder on a context allocated for a constructed system whose time
variable is not also a state or input variable: the environment it returns
binds time, state and input as the context gives them. -/
theorem populate_bindsContext (armed : Bool) (a : Args) (sys : SymbolicVectorSystem)
    (h : SymbolicVectorSystem.construct armed a = .ok sys) (context : Context)
    (hc : context.AllocatedFor sys) (env0 env : Environment)
    (hp : sys.PopulateEnvironmentFromContext context env0 = .ok env)
    (htime : ∀ tv, sys.time_var_ = some tv → tv ∉ sys.state_vars_ ∧ tv ∉ sys.input_vars_) :
    env.BindsContext sys context := by
  obtain ⟨env1, p0, p1, p2, p3, _⟩ := populate_spec armed a sys h context hc env0
  rw [hp] at p0
  injection p0 with p0
  subst p0
  refine ⟨?_, ?_, ?_⟩
  · intro tv ht
    exact p3 tv ht (htime tv ht).1 (htime tv ht).2
  · intro k v x hk hx
    rw [p2 k v hk, hx]
  · intro k v x hk hx
    rw [p1 k v hk, hx]

/-! ## The local copy of the template -/

theorem bindVariablesAt_copy (vars : List Variable) (values : List ℚ) (is : List Nat)
    (frame : Frame) :
    (bindVariablesAt .copy vars values is frame).2.env_ = frame.env_
      ∧ Frame.outcome (bindVariablesAt .copy vars values is frame)
          = bindVariables vars values is frame.env := by
  induction is generalizing frame with
  | nil => exact ⟨rfl, rfl⟩
  | cons i is ih =>
    unfold bindVariablesAt bindVariables
    cases hv : vars[i]? with
    | none => exact ⟨rfl, rfl⟩
    | some v =>
      cases hx : values[i]? with
      | none => exact ⟨rfl, rfl⟩
      | some x =>
        simp only
        exact ih (frame.assignAt .copy v x)

theorem populateAt_copy (sys : SymbolicVectorSystem) (context : Context) (frame : Frame) :
    (sys.populateAt context .copy frame).2.env_ = frame.env_
      ∧ Frame.outcome (sys.populateAt context .copy frame)
          = sys.PopulateEnvironmentFromContext context frame.env := by
  have hT : (sys.bindTimeAt context .copy frame).env_ = frame.env_
      ∧ (sys.bindTimeAt context .copy frame).env = sys.bindTime context frame.env := by
    unfold SymbolicVectorSystem.bindTimeAt SymbolicVectorSystem.bindTime
    cases sys.time_var_ <;> exact ⟨rfl, rfl⟩
  have hS : ∀ fr : Frame, (sys.bindStateAt context .copy fr).2.env_ = fr.env_
      ∧ Frame.outcome (sys.bindStateAt context .copy fr) = sys.bindState context fr.env := by
    intro fr
    unfold SymbolicVectorSystem.bindStateAt SymbolicVectorSystem.bindState
    by_cases hs : sys.state_vars_.length > 0
    · rw [if_pos hs, if_pos hs]
      exact bindVariablesAt_copy _ _ _ fr
    · rw [if_neg hs, if_neg hs]
      exact ⟨rfl, rfl⟩
  have hI : ∀ fr : Frame, (sys.bindInputAt context .copy fr).2.env_ = fr.env_
      ∧ Frame.outcome (sys.bindInputAt context .copy fr) = sys.bindInput context fr.env := by
    intro fr
    unfold SymbolicVectorSystem.bindInputAt SymbolicVectorSystem.bindInput
    by_cases hs : sys.input_vars_.length > 0
    · rw [if_pos hs, if_pos hs]
      exact bindVariablesAt_copy _ _ _ fr
    · rw [if_neg hs, if_neg hs]
      exact ⟨rfl, rfl⟩
  obtain ⟨s1, s2⟩ := hS (sys.bindTimeAt context .copy frame)
  unfold SymbolicVectorSystem.populateAt SymbolicVectorSystem.PopulateEnvironmentFromContext
  rw [← hT.2, ← s2]
  rcases hst : sys.bindStateAt context .copy (sys.bindTimeAt context .copy frame)
    with ⟨status, fr⟩
  rw [hst] at s1
  cases status with
  | error f =>
    simp only [Frame.outcome]
    exact ⟨s1.trans hT.1, trivial⟩
  | ok u =>
    simp only [Frame.outcome]
    obtain ⟨i1, i2⟩ := hI fr
    exact ⟨i1.trans (s1.trans hT.1), i2⟩

theorem evaluateOnCopy_member (sys : SymbolicVectorSystem) (context : Context)
    (exprs : List Expression) (vec : List ℚ) :
    (sys.evaluateOnCopy context exprs vec).1 = sys.env_ := by
  obtain ⟨m1, _⟩ := populateAt_copy sys context { env_ := sys.env_, env := sys.env_ }
  unfold SymbolicVectorSystem.evaluateOnCopy
  simp only
  rcases hp : sys.populateAt context .copy { env_ := sys.env_, env := sys.env_ }
    with ⟨status, fr⟩
  rw [hp] at m1
  cases status <;> exact m1

theorem with_env_self (sys : SymbolicVectorSystem) (env : Environment) (h : env = sys.env_) :
    ({ sys with env_ := env } : SymbolicVectorSystem) = sys := by
  subst h
  rfl

theorem call_fst (sys : SymbolicVectorSystem) (c : Call) : (sys.call c).1 = sys := by
  cases c with
  | CalcOutput context output_vector =>
    simp only [SymbolicVectorSystem.call]
    cases DRAKE_DEMAND 106 (decide (sys.output_.length > 0)) with
    | error f => rfl
    | ok u => exact with_env_self sys _ (evaluateOnCopy_member sys context _ _)
  | DoCalcTimeDerivatives context derivatives =>
    simp only [SymbolicVectorSystem.call]
    cases DRAKE_DEMAND 118 (decide (sys.time_period_ = 0)) with
    | error f => rfl
    | ok u =>
      cases DRAKE_DEMAND 119 (decide (sys.dynamics_.length > 0)) with
      | error f => rfl
      | ok u => exact with_env_self sys _ (evaluateOnCopy_member sys context _ _)
  | DoCalcDiscreteVariableUpdates context events updates =>
    simp only [SymbolicVectorSystem.call]
    cases DRAKE_DEMAND 135 (decide (sys.time_period_ > 0)) with
    | error f => rfl
    | ok u =>
      cases DRAKE_DEMAND 136 (decide (sys.dynamics_.length > 0)) with
      | error f => rfl
      | ok u => exact with_env_self sys _ (evaluateOnCopy_member sys context _ _)

theorem after_eq (sys : SymbolicVectorSystem) (history : List Call) :
    sys.after history = sys := by
  induction history with
  | nil => rfl
  | cons c calls ih =>
    unfold SymbolicVectorSystem.after
    rw [call_fst]
    exact ih

theorem call_CalcOutput_snd (sys : SymbolicVectorSystem) (context : Context)
    (output_vector : List ℚ) :
    (sys.call (.CalcOutput context output_vector)).2 = sys.CalcOutput context output_vector := by
  obtain ⟨_, m2⟩ := populateAt_copy sys context { env_ := sys.env_, env := sys.env_ }
  simp only [SymbolicVectorSystem.call, SymbolicVectorSystem.CalcOutput]
  cases DRAKE_DEMAND 106 (decide (sys.output_.length > 0)) with
  | error f => rfl
  | ok u =>
    simp only [SymbolicVectorSystem.evaluateOnCopy]
    rw [← m2]
    rcases hp : sys.populateAt context .copy { env_ := sys.env_, env := sys.env_ }
      with ⟨status, fr⟩
    cases status <;> rfl

/-- Had the callbacks handed the address of the member `env_` to the binder,
the template would not survive a call: the pointer decides. -/
theorem populateAt_member_changes_template :
    ∃ sys, SymbolicVectorSystem.construct true
        ⟨none, [], [Scenario.u], [], [.mul (.const 2) (.var Scenario.u)], 0⟩ = .ok sys
      ∧ (sys.populateAt ⟨0, [], [], [3]⟩ .member { env_ := sys.env_, env := sys.env_ }).2.env_
          ≠ sys.env_
      ∧ (sys.populateAt ⟨0, [], [], [3]⟩ .copy { env_ := sys.env_, env := sys.env_ }).2.env_
          = sys.env_ :=
  ⟨_, rfl, by decide, by decide⟩

/-! ## The discrete scenario -/

/-- The discrete scenario of the specification: it is constructed, one update
from state `[0]` gives `[1]`, and the context with discrete state `[0]` has the
declared widths. -/
theorem discreteScenario_update :
    ∃ sys, SymbolicVectorSystem.construct true
        ⟨none, [Scenario.x], [], [.add (.var Scenario.x) (.const 1)], [], 1 / 10⟩ = .ok sys
      ∧ sys.DoCalcDiscreteVariableUpdates ⟨0, [], [0], []⟩ [7] [0] = (.ok (), [1])
      ∧ (⟨0, [], [0], []⟩ : Context).AllocatedFor sys
      ∧ [(0 : ℚ)].length = sys.leaf.discrete_states.sum := by
  have hp : ((1 : ℚ) / 10 > 0) := by norm_num
  have hp' : ¬ ((1 : ℚ) / 10 = 0) := by norm_num
  refine ⟨_, (construct_eq_ok_iff _ _ _).2
    ⟨Or.inl (by decide), by norm_num, by decide, fun _ => by decide, fun _ => by decide, rfl⟩,
    ?_, ?_, ?_⟩
  · simp [SymbolicVectorSystem.DoCalcDiscreteVariableUpdates, DRAKE_DEMAND, hp,
      SymbolicVectorSystem.PopulateEnvironmentFromContext, SymbolicVectorSystem.bindTime,
      SymbolicVectorSystem.bindState, SymbolicVectorSystem.bindInput,
      SymbolicVectorSystem.stateVector, bindVariables, evaluateInto, Expression.Evaluate,
      envTemplate, allVars, Variables.ofVector, Variables.insert, Variables.include,
      Variables.empty, Environment.insert, Environment.find, Environment.assign,
      Environment.replace, Environment.empty, SetAtIndex, List.range, List.range.loop,
      List.lookup]
  · simp [Context.AllocatedFor, declarations, hp']
  · simp [declarations, hp']

/-! ## The claims -/

open Scenario

/-- Claim C1, evaluated on the code: `DoHasDirectFeedthrough(0, 0)` returns
false for no system at all, since the inner loop runs to
`j = input_vars_.size()` and reads `input_vars_[j]` there. With state `x` and
sole input `u` the query returns true for output `[u + x]`, but for output
`[x]` it ends in the out-of-range read instead of returning false, and so it
does for output `[x, u]`, where an output expression does refer to the
input. -/
theorem C1_feedthrough_never_returns_false :
    (∀ sys : SymbolicVectorSystem,
      (sys.DoHasDirectFeedthrough 0 0).flow ≠ .returned (some false))
    ∧ (∃ sys, SymbolicVectorSystem.construct true
        ⟨none, [x], [u], [], [.add (.var u) (.var x)], 0⟩ = .ok sys
      ∧ (sys.DoHasDirectFeedthrough 0 0).flow = .returned (some true))
    ∧ (∃ sys, SymbolicVectorSystem.construct true ⟨none, [x], [u], [], [.var x], 0⟩ = .ok sys
      ∧ (sys.DoHasDirectFeedthrough 0 0).flow = .fault .outOfRange)
    ∧ (∃ sys, SymbolicVectorSystem.construct true
        ⟨none, [x], [u], [], [.var x, .var u], 0⟩ = .ok sys
      ∧ (sys.DoHasDirectFeedthrough 0 0).flow = .fault .outOfRange) := by
  refine ⟨?_, ⟨_, rfl, by decide⟩, ⟨_, rfl, by decide⟩, ⟨_, rfl, by decide⟩⟩
  intro sys
  rw [DoHasDirectFeedthrough_eq_first_row]
  rcases feedthroughInner_range_ends sys 0 with h | ⟨h, _⟩ <;> rw [h] <;> simp

/-- Claim C2, evaluated on the code: for every system the call
`DoHasDirectFeedthrough(0, 0)` either returns true or ends in an out-of-range
read, of `output_[output_.size()]` or of `input_vars_[input_vars_.size()]`; in
the boundary scenario (output `[x]`, sole input `u`) the input-variable vector
has length 1 and the call reads `input_vars_[1]`. -/
theorem C2_feedthrough_reads_past_end :
    (∀ sys : SymbolicVectorSystem,
      (sys.DoHasDirectFeedthrough 0 0).flow = .returned (some true)
      ∨ ((sys.DoHasDirectFeedthrough 0 0).flow = .fault .outOfRange
        ∧ (Access.output sys.output_.length ∈ (sys.DoHasDirectFeedthrough 0 0).reads
          ∨ Access.input_vars sys.input_vars_.length
              ∈ (sys.DoHasDirectFeedthrough 0 0).reads)))
    ∧ (∃ sys, SymbolicVectorSystem.construct true ⟨none, [x], [u], [], [.var x], 0⟩ = .ok sys
      ∧ sys.input_vars_.length = 1
      ∧ Access.input_vars 1 ∈ (sys.DoHasDirectFeedthrough 0 0).reads) := by
  refine ⟨?_, ⟨_, rfl, by decide, by decide⟩⟩
  intro sys
  rw [DoHasDirectFeedthrough_eq_first_row]
  rcases feedthroughInner_range_ends sys 0 with h | ⟨h, h2⟩
  · exact Or.inl h
  · refine Or.inr ⟨h, ?_⟩
    rcases h2 with ⟨h3, h4⟩ | h4
    · left
      have h0 : sys.output_.length = 0 := by omega
      rw [h0]; exact h4
    · exact Or.inr h4

/-- Claim C3 fails on the code: three state variables with a two-row dynamics
vector are accepted by the constructor. -/
theorem C3_counterexample :
    ∃ sys, SymbolicVectorSystem.construct true
        ⟨none, [x, x2, x3], [], [.var x, .var x2], [], 0⟩ = .ok sys
      ∧ sys.dynamics_ ≠ [] ∧ sys.state_vars_.length = 3 ∧ sys.dynamics_.length = 2 :=
  ⟨_, rfl, by decide, by decide, by decide⟩

/-- Claim C3 as amended: the constructor does not compare the length of the
dynamics vector with the number of state variables. Whenever it accepts some
arguments, it also accepts them with the dynamics replaced by any non-empty
vector of expressions taken from the accepted one, whatever its length, and the
resulting system keeps the state variables and has that dynamics vector. -/
theorem C3_dynamics_length_unchecked (armed : Bool) (a : Args) (dynamics : List Expression)
    (hne : dynamics ≠ []) (hsub : ∀ e ∈ dynamics, e ∈ a.dynamics)
    (hok : ∃ sys, SymbolicVectorSystem.construct armed a = .ok sys) :
    ∃ sys, SymbolicVectorSystem.construct armed { a with dynamics := dynamics } = .ok sys
      ∧ sys.dynamics_ = dynamics ∧ sys.state_vars_ = a.state_vars := by
  obtain ⟨sys, h⟩ := hok
  rw [construct_eq_ok_iff] at h
  obtain ⟨_, c2, c3, c4, c5, _⟩ := h
  refine ⟨_, (construct_eq_ok_iff _ _ _).2 ⟨?_, c2, c3, ?_, c5, rfl⟩, rfl, rfl⟩
  · left
    exact List.length_pos.2 hne
  · intro hs
    have := (assertDeclared_eq_ok_iff _ _ _ _).1 (c4 hs)
    exact (assertDeclared_eq_ok_iff _ _ _ _).2 (fun ha e he => this ha e (hsub e he))

/-- Witness of C3 as amended: from three state variables with three dynamics
rows to the same state variables with two rows. -/
theorem C3_dynamics_length_unchecked_witness :
    ∃ sys, SymbolicVectorSystem.construct true
        ⟨none, [x, x2, x3], [], [.var x2, .var x2], [], 0⟩ = .ok sys
      ∧ sys.dynamics_ = [.var x2, .var x2] ∧ sys.state_vars_ = [x, x2, x3] :=
  C3_dynamics_length_unchecked true ⟨none, [x, x2, x3], [], [.var x, .var x2, .var x3], [], 0⟩
    [.var x2, .var x2] (by decide) (by decide) ⟨_, rfl⟩

/-- Claim C4 fails on the code: with an empty state-variable vector the
dynamics `[z]`, whose variable `z` is not declared, is accepted, because the
check of the dynamics sits inside `if (state_vars_.rows() > 0)`. -/
theorem C4_counterexample :
    ∃ sys a, a = (⟨none, [], [], [.var z], [], 0⟩ : Args)
      ∧ SymbolicVectorSystem.construct true a = .ok sys ∧ a.HasUndeclared a.dynamics :=
  ⟨_, _, rfl, rfl, by decide⟩

/-- Claim C4 as amended: with `DRAKE_ASSERT` armed, construction fails if the
state-variable vector is non-empty and some dynamics expression refers to a
variable that is neither the time variable nor a state or input variable, and
it fails if some output expression refers to such a variable. -/
theorem C4_undeclared_rejected (a : Args)
    (h : (0 < a.state_vars.length ∧ a.HasUndeclared a.dynamics) ∨ a.HasUndeclared a.output) :
    ∃ f, SymbolicVectorSystem.construct true a = .error f := by
  rcases construct_cases true a with ⟨sys, hc⟩ | hc
  · exfalso
    rw [construct_eq_ok_iff] at hc
    obtain ⟨_, _, _, c4, c5, _⟩ := hc
    rcases h with ⟨hs, hu⟩ | hu
    · have := c4 hs
      rw [assertDeclared_of_hasUndeclared a 45 _ hu] at this
      cases this
    · have ho : 0 < a.output.length := by
        obtain ⟨e, he, _⟩ := hu
        exact List.length_pos_of_mem he
      have := c5 ho
      rw [assertDeclared_of_hasUndeclared a 56 _ hu] at this
      cases this
  · exact hc

/-- Witness of C4 as amended: dynamics `[z]` with state `x`, and output `[z]`
with input `u`. -/
theorem C4_undeclared_rejected_witness :
    (∃ f, SymbolicVectorSystem.construct true ⟨none, [x], [], [.var z], [], 0⟩ = .error f)
    ∧ (∃ f, SymbolicVectorSystem.construct true ⟨none, [], [u], [], [.var z], 0⟩ = .error f) :=
  ⟨C4_undeclared_rejected ⟨none, [x], [], [.var z], [], 0⟩ (Or.inl ⟨by decide, by decide⟩),
   C4_undeclared_rejected ⟨none, [], [u], [], [.var z], 0⟩ (Or.inr (by decide))⟩

/-- Claim C5: construction fails whenever the state variables followed by the
input variables contain a variable twice, and it fails at the uniqueness check
of line 35 when the two earlier checks pass; when the state and input variables
are pairwise distinct the constructor passes that check: it does not end in the
fault of line 35. -/
theorem C5_duplicates_rejected (armed : Bool) (a : Args) :
    (¬ (a.state_vars ++ a.input_vars).Nodup →
      ∃ f, SymbolicVectorSystem.construct armed a = .error f)
    ∧ ((0 < a.dynamics.length ∨ 0 < a.output.length) → 0 ≤ a.time_period →
      ¬ (a.state_vars ++ a.input_vars).Nodup →
      SymbolicVectorSystem.construct armed a = .error (.demand 35))
    ∧ ((a.state_vars ++ a.input_vars).Nodup →
      SymbolicVectorSystem.construct armed a ≠ .error (.demand 35)) := by
  have h35 : SymbolicVectorSystem.construct armed a = .error (.demand 35) →
      ¬ (a.state_vars ++ a.input_vars).Nodup := by
    intro h hn
    have h3 : DRAKE_DEMAND 35
        (decide ((Variables.ofVector (a.state_vars ++ a.input_vars)).size
          = (a.state_vars ++ a.input_vars).length)) = .ok () := by
      rw [DRAKE_DEMAND_eq_ok_iff, decide_eq_true_eq, Variables.size_ofVector_eq_iff]
      exact hn
    unfold SymbolicVectorSystem.construct at h
    rw [h3] at h
    rcases DRAKE_DEMAND_cases 27
      (decide (a.dynamics.length > 0) || decide (a.output.length > 0)) with ⟨_, h1⟩ | ⟨_, h1⟩
    · rcases DRAKE_DEMAND_cases 28 (decide (a.time_period ≥ 0)) with ⟨_, h2⟩ | ⟨_, h2⟩
      · rw [h1, h2] at h
        simp only at h
        rcases assertDeclared_cases armed 45 (allVars a) a.dynamics with h4 | h4 <;>
          rcases assertDeclared_cases armed 56 (allVars a) a.output with h5 | h5 <;>
          by_cases hs : a.state_vars.length > 0 <;>
          by_cases ho : a.output.length > 0 <;>
          simp [hs, ho, h4, h5] at h
      · rw [h1, h2] at h
        simp at h
    · rw [h1] at h
      simp at h
  refine ⟨?_, ?_, fun hn h => h35 h hn⟩
  · intro hd
    rcases construct_cases armed a with ⟨sys, hc⟩ | hc
    · exact absurd ((construct_eq_ok_iff _ _ _).1 hc).2.2.1 hd
    · exact hc
  · intro h1 h2 hd
    have d1 : DRAKE_DEMAND 27
        (decide (a.dynamics.length > 0) || decide (a.output.length > 0)) = .ok () := by
      rw [DRAKE_DEMAND_eq_ok_iff]; simpa using h1
    have d2 : DRAKE_DEMAND 28 (decide (a.time_period ≥ 0)) = .ok () := by
      rw [DRAKE_DEMAND_eq_ok_iff]; simpa using h2
    have d3 : DRAKE_DEMAND 35
        (decide ((Variables.ofVector (a.state_vars ++ a.input_vars)).size
          = (a.state_vars ++ a.input_vars).length)) = .error (.demand 35) := by
      rcases DRAKE_DEMAND_cases 35
        (decide ((Variables.ofVector (a.state_vars ++ a.input_vars)).size
          = (a.state_vars ++ a.input_vars).length)) with ⟨c, _⟩ | ⟨_, h3⟩
      · rw [decide_eq_true_eq, Variables.size_ofVector_eq_iff] at c
        exact absurd c hd
      · exact h3
    unfold SymbolicVectorSystem.construct
    rw [d1, d2, d3]

/-- Witness of C5: a duplicate inside the state vector, a duplicate inside the
input vector, a variable in both (rejected at line 35), and three distinct
variables, which are accepted. -/
theorem C5_duplicates_rejected_witness :
    (∃ f, SymbolicVectorSystem.construct true ⟨none, [x, x], [], [], [.var x], 0⟩ = .error f)
    ∧ (∃ f, SymbolicVectorSystem.construct true ⟨none, [], [u, u], [], [.var u], 0⟩ = .error f)
    ∧ SymbolicVectorSystem.construct true ⟨none, [x], [x], [], [.var x], 0⟩
        = .error (.demand 35)
    ∧ (∃ sys, SymbolicVectorSystem.construct true ⟨none, [x, x2], [u], [], [.var x], 0⟩
          = .ok sys)
    ∧ SymbolicVectorSystem.construct true ⟨none, [x, x2], [u], [], [.var x], 0⟩
        ≠ .error (.demand 35) :=
  ⟨(C5_duplicates_rejected true ⟨none, [x, x], [], [], [.var x], 0⟩).1 (by decide),
   (C5_duplicates_rejected true ⟨none, [], [u, u], [], [.var u], 0⟩).1 (by decide),
   (C5_duplicates_rejected true ⟨none, [x], [x], [], [.var x], 0⟩).2.1
      (Or.inr (by decide)) (by decide) (by decide),
   ⟨_, rfl⟩,
   (C5_duplicates_rejected true ⟨none, [x, x2], [u], [], [.var x], 0⟩).2.2 (by decide)⟩

/-- Claim C6 fails on the code: a model whose time variable `x` is also its
state variable is constructed. -/
theorem C6_counterexample :
    ∃ sys, SymbolicVectorSystem.construct true ⟨some x, [x], [u], [], [.var x], 0⟩ = .ok sys
      ∧ sys.time_var_ = some x ∧ x ∈ sys.state_vars_ :=
  ⟨_, rfl, by decide, by decide⟩

/-- Claim C6 as amended: in every constructed model the state variables and
the input variables are pairwise distinct, within and across the two groups;
the time variable is not compared with them: whenever construction succeeds
without a time variable it succeeds with any variable as time variable, a state
or input variable included. -/
theorem C6_time_variable_unchecked (armed : Bool) (a : Args) :
    (∀ sys, SymbolicVectorSystem.construct armed a = .ok sys →
      (sys.state_vars_ ++ sys.input_vars_).Nodup)
    ∧ (∀ v, (∃ sys, SymbolicVectorSystem.construct armed { a with time_var := none } = .ok sys) →
      ∃ sys, SymbolicVectorSystem.construct armed { a with time_var := some v } = .ok sys
        ∧ sys.time_var_ = some v) := by
  constructor
  · intro sys h
    rw [construct_eq_ok_iff] at h
    obtain ⟨_, _, c3, _, _, rfl⟩ := h
    exact c3
  · rintro v ⟨sys, h⟩
    rw [construct_eq_ok_iff] at h
    obtain ⟨c1, c2, c3, c4, c5, _⟩ := h
    have mono : ∀ line exprs,
        assertDeclared armed line (allVars { a with time_var := none }) exprs = .ok () →
        assertDeclared armed line (allVars { a with time_var := some v }) exprs = .ok () := by
      intro line exprs h
      rw [assertDeclared_eq_ok_iff] at h ⊢
      intro ha e he
      have := h ha e he
      rw [Variables.isSubsetOf_iff] at this ⊢
      intro w hw
      have := this w hw
      rw [include_allVars] at this ⊢
      rcases this with h | h
      · cases h
      · exact Or.inr h
    exact ⟨_, (construct_eq_ok_iff _ _ _).2
      ⟨c1, c2, c3, fun hs => mono _ _ (c4 hs), fun ho => mono _ _ (c5 ho), rfl⟩, rfl⟩

/-- Witness of C6 as amended: state `x`, input `u`, and then `u` as time
variable as well. -/
theorem C6_time_variable_unchecked_witness :
    (∃ sys, SymbolicVectorSystem.construct true ⟨none, [x], [u], [], [.var x], 0⟩ = .ok sys
      ∧ (sys.state_vars_ ++ sys.input_vars_).Nodup)
    ∧ (∃ sys, SymbolicVectorSystem.construct true ⟨some u, [x], [u], [], [.var x], 0⟩ = .ok sys
      ∧ sys.time_var_ = some u) :=
  ⟨⟨_, rfl, (C6_time_variable_unchecked true ⟨none, [x], [u], [], [.var x], 0⟩).1 _ rfl⟩,
   (C6_time_variable_unchecked true ⟨none, [x], [u], [], [.var x], 0⟩).2 u ⟨_, rfl⟩⟩

/-- Claim C7: construction fails (at line 27) if the dynamics and the output
are both empty, it fails if the period is negative, and every constructed model
has a non-empty dynamics or output vector and a period that is at least 0. -/
theorem C7_nonempty_and_period (armed : Bool) (a : Args) :
    (a.dynamics = [] ∧ a.output = [] →
      SymbolicVectorSystem.construct armed a = .error (.demand 27))
    ∧ (a.time_period < 0 → ∃ f, SymbolicVectorSystem.construct armed a = .error f)
    ∧ (∀ sys, SymbolicVectorSystem.construct armed a = .ok sys →
      (sys.dynamics_ ≠ [] ∨ sys.output_ ≠ []) ∧ sys.time_period_ ≥ 0) := by
  refine ⟨?_, ?_, ?_⟩
  · rintro ⟨hd, ho⟩
    unfold SymbolicVectorSystem.construct
    simp [hd, ho, DRAKE_DEMAND]
  · intro hp
    rcases construct_cases armed a with ⟨sys, hc⟩ | hc
    · have := ((construct_eq_ok_iff _ _ _).1 hc).2.1
      exact absurd hp (not_lt.2 this)
    · exact hc
  · intro sys h
    rw [construct_eq_ok_iff] at h
    obtain ⟨c1, c2, _, _, _, rfl⟩ := h
    refine ⟨?_, c2⟩
    rcases c1 with h | h
    · exact Or.inl (List.length_pos.1 h)
    · exact Or.inr (List.length_pos.1 h)

/-- Witness of C7: no dynamics and no output, period -1, and an accepted model. -/
theorem C7_nonempty_and_period_witness :
    SymbolicVectorSystem.construct true ⟨none, [x], [u], [], [], 0⟩ = .error (.demand 27)
    ∧ (∃ f, SymbolicVectorSystem.construct true ⟨none, [x], [], [.var x], [], -1⟩ = .error f)
    ∧ (∃ sys, SymbolicVectorSystem.construct true ⟨none, [x], [], [.var x], [], 0⟩ = .ok sys
      ∧ (sys.dynamics_ ≠ [] ∨ sys.output_ ≠ []) ∧ sys.time_period_ ≥ 0) :=
  ⟨(C7_nonempty_and_period true ⟨none, [x], [u], [], [], 0⟩).1 ⟨rfl, rfl⟩,
   (C7_nonempty_and_period true ⟨none, [x], [], [.var x], [], -1⟩).2.1 (by norm_num),
   ⟨_, rfl, (C7_nonempty_and_period true ⟨none, [x], [], [.var x], [], 0⟩).2.2 _ rfl⟩⟩

/-- Claim C8: for a model built with period 0 the discrete-update callback
fails at line 135 for every context, for a model built with a positive period
the derivative callback fails at line 118 for every context, and in both cases
the result vector is left as it was. -/
theorem C8_mode_exclusivity (armed : Bool) (a : Args) (sys : SymbolicVectorSystem)
    (h : SymbolicVectorSystem.construct armed a = .ok sys) (context : Context)
    (events : List Nat) (result : List ℚ) :
    (a.time_period = 0 →
      sys.DoCalcDiscreteVariableUpdates context events result = (.error (.demand 135), result))
    ∧ (a.time_period > 0 →
      sys.DoCalcTimeDerivatives context result = (.error (.demand 118), result)) := by
  rw [construct_eq_ok_iff] at h
  obtain ⟨_, _, _, _, _, rfl⟩ := h
  constructor
  · intro hp
    unfold SymbolicVectorSystem.DoCalcDiscreteVariableUpdates
    simp [hp, DRAKE_DEMAND]
  · intro hp
    unfold SymbolicVectorSystem.DoCalcTimeDerivatives
    simp [ne_of_gt hp, DRAKE_DEMAND]

/-- Witness of C8: a continuous model and a model of period 1/10. -/
theorem C8_mode_exclusivity_witness :
    (∃ sys, SymbolicVectorSystem.construct true ⟨none, [x], [], [.var x], [], 0⟩ = .ok sys
      ∧ sys.DoCalcDiscreteVariableUpdates ⟨0, [2], [], []⟩ [] [5] = (.error (.demand 135), [5]))
    ∧ (∃ sys, SymbolicVectorSystem.construct true
        ⟨none, [x], [], [.add (.var x) (.const 1)], [], 1 / 10⟩ = .ok sys
      ∧ sys.DoCalcTimeDerivatives ⟨0, [], [2], []⟩ [5] = (.error (.demand 118), [5])) :=
  ⟨⟨_, rfl, (C8_mode_exclusivity true ⟨none, [x], [], [.var x], [], 0⟩ _ rfl
      ⟨0, [2], [], []⟩ [] [5]).1 rfl⟩,
   discreteScenario_constructed.elim fun sys h =>
    ⟨sys, h, (C8_mode_exclusivity true _ sys h ⟨0, [], [2], []⟩ [] [5]).2 (by norm_num)⟩⟩

/-- Claim C10 fails on the code in three ways. State `x` with dynamics
`[-x, x]` and period 0 is constructed with a continuous state of width 1, so
index 1, which is below the dynamics length, is not an index of the derivative
vector, and `DoCalcTimeDerivatives` ends in an out-of-range fault after writing
component 0. In a build with `DRAKE_ASSERT` disarmed, state `x` with dynamics
`[z]` is constructed and the call ends in an unbound-variable fault. With the
time variable `x` also the state variable, time 5 and state `[7]`, dynamics
`[x]` gives the derivative 7, while `x` evaluates to 5 under every environment
that maps the time variable to the time of the context. -/
theorem C10_counterexample :
    (∃ sys, SymbolicVectorSystem.construct true
        ⟨some t, [x], [], [.neg (.var x), .var x], [], 0⟩ = .ok sys
      ∧ sys.time_period_ = 0 ∧ sys.dynamics_ ≠ []
      ∧ (⟨0, [2], [], []⟩ : Context).AllocatedFor sys
      ∧ sys.leaf.continuous_states = [1] ∧ 1 < sys.dynamics_.length
      ∧ sys.DoCalcTimeDerivatives ⟨0, [2], [], []⟩ [0] = (.error .outOfRange, [-2]))
    ∧ (∃ sys, SymbolicVectorSystem.construct false ⟨none, [x], [], [.var z], [], 0⟩ = .ok sys
      ∧ sys.time_period_ = 0 ∧ sys.dynamics_ ≠ []
      ∧ (⟨0, [2], [], []⟩ : Context).AllocatedFor sys
      ∧ sys.DoCalcTimeDerivatives ⟨0, [2], [], []⟩ [0] = (.error .unboundVariable, [0]))
    ∧ (∃ sys, SymbolicVectorSystem.construct true ⟨some x, [x], [], [.var x], [], 0⟩ = .ok sys
      ∧ sys.time_period_ = 0 ∧ sys.dynamics_ ≠ [] ∧ sys.time_var_ = some x
      ∧ (⟨5, [7], [], []⟩ : Context).AllocatedFor sys
      ∧ sys.DoCalcTimeDerivatives ⟨5, [7], [], []⟩ [0] = (.ok (), [7])
      ∧ (∀ env' : Environment, env'.find x = some 5 → (Expression.var x).Evaluate env' = .ok 5)
      ∧ (∀ env' : Environment, ¬ env'.BindsContext sys ⟨5, [7], [], []⟩)) := by
  refine ⟨⟨_, rfl, by decide, by decide, by decide, by decide, by decide, by rfl⟩,
    ⟨_, rfl, by decide, by decide, by decide, by rfl⟩,
    ⟨_, rfl, by decide, by decide, rfl, by decide, by rfl, ?_, ?_⟩⟩
  · intro env' h
    unfold Expression.Evaluate
    rw [h]
  · rintro env' ⟨b1, b2, _⟩
    have h1 := b1 x rfl
    have h2 := b2 0 x 7 rfl rfl
    rw [h1] at h2
    revert h2
    decide

/-- Claim C10 as amended: for a constructed model with period 0 and a
non-empty dynamics vector that has at most as many rows as there are state
variables, built with `DRAKE_ASSERT` armed or with dynamics expressions that
refer to declared variables only, whose time variable is not also a state or
input variable, a context allocated for it and a derivative vector of the
declared width, `DoCalcTimeDerivatives` succeeds; the environment produced by
the binder binds time, continuous state and input from the context; every `i`
below the dynamics length is an index of the declared continuous state,
component `i` then holds the value of dynamics expression `i` under that
environment, the other components are unchanged, and every environment with
those bindings gives the same values. -/
theorem C10_DoCalcTimeDerivatives_writes (armed : Bool) (a : Args)
    (sys : SymbolicVectorSystem)
    (h : SymbolicVectorSystem.construct armed a = .ok sys) (hp : sys.time_period_ = 0)
    (hd : sys.dynamics_ ≠ []) (hshape : sys.dynamics_.length ≤ sys.state_vars_.length)
    (hdecl : armed = true ∨ ¬ a.HasUndeclared a.dynamics)
    (htime : ∀ tv, sys.time_var_ = some tv → tv ∉ sys.state_vars_ ∧ tv ∉ sys.input_vars_)
    (context : Context) (hc : context.AllocatedFor sys)
    (derivatives : List ℚ) (hlen : derivatives.length = sys.leaf.continuous_states.sum) :
    ∃ env result, sys.PopulateEnvironmentFromContext context sys.env_ = .ok env
      ∧ env.BindsContext sys context
      ∧ sys.stateVector context = context.continuous_state
      ∧ sys.DoCalcTimeDerivatives context derivatives = (.ok (), result)
      ∧ result.length = derivatives.length
      ∧ (∀ (i : Nat) (e : Expression), sys.dynamics_[i]? = some e →
          i < sys.leaf.continuous_states.sum
            ∧ ∃ y, e.Evaluate env = .ok y ∧ result[i]? = some y)
      ∧ (∀ i : Nat, sys.dynamics_.length ≤ i → result[i]? = derivatives[i]?)
      ∧ (∀ env' : Environment, env'.BindsContext sys context →
          ∀ e ∈ sys.dynamics_, e.Evaluate env' = e.Evaluate env) := by
  obtain ⟨env, p0, p1, p2⟩ := populate_declared armed a sys h context hc sys.env_
  have hpos : 0 < sys.dynamics_.length := List.length_pos.2 hd
  have hs : 0 < sys.state_vars_.length := lt_of_lt_of_le hpos hshape
  have hfacts : (∀ e ∈ sys.dynamics_, e.GetVariables.IsSubsetOf (allVars a) = true)
      ∧ sys.leaf.continuous_states.sum = sys.state_vars_.length := by
    have h' := h
    rw [construct_eq_ok_iff] at h'
    obtain ⟨_, _, _, c4, _, rfl⟩ := h'
    refine ⟨declared_of_checked armed a 45 a.dynamics (c4 hs) hdecl, ?_⟩
    simp only at hp
    rw [declarations_continuous_sum, if_pos hp]
  obtain ⟨hdeclared, hwidth⟩ := hfacts
  obtain ⟨result, e1, e2, e3, e4⟩ :=
    evaluateInto_declared a sys.dynamics_ env hdeclared p1 derivatives (by omega)
  refine ⟨env, result, p0, populate_bindsContext armed a sys h context hc _ env p0 htime,
    ?_, ?_, e2, ?_, e4, ?_⟩
  · unfold SymbolicVectorSystem.stateVector
    rw [if_neg (by rw [hp]; exact lt_irrefl _)]
  · unfold SymbolicVectorSystem.DoCalcTimeDerivatives
    have hdem1 : DRAKE_DEMAND 118 (decide (sys.time_period_ = 0)) = .ok () := by
      rw [DRAKE_DEMAND_eq_ok_iff]; simpa using hp
    have hdem2 : DRAKE_DEMAND 119 (decide (sys.dynamics_.length > 0)) = .ok () := by
      rw [DRAKE_DEMAND_eq_ok_iff]; simpa using hpos
    rw [hdem1, hdem2]
    simp only [p0]
    exact e1
  · intro i e hi
    have := (List.getElem?_eq_some.1 hi).1
    exact ⟨by omega, e3 i e hi⟩
  · intro env' hb e he
    exact evaluate_agree a e env env' (hdeclared e he) (p2 env' hb)

/-- Witness of C10 as amended: time variable `t`, state `x`, dynamics `[-x]`,
period 0, time 0 and state `[2]` give the derivative `[-2]`. -/
theorem C10_DoCalcTimeDerivatives_writes_witness :
    ∃ sys, SymbolicVectorSystem.construct true
        ⟨some t, [x], [], [.neg (.var x)], [], 0⟩ = .ok sys
      ∧ sys.DoCalcTimeDerivatives ⟨0, [2], [], []⟩ [0] = (.ok (), [-2])
      ∧ ∃ env result, sys.PopulateEnvironmentFromContext ⟨0, [2], [], []⟩ sys.env_ = .ok env
        ∧ env.BindsContext sys ⟨0, [2], [], []⟩
        ∧ sys.stateVector ⟨0, [2], [], []⟩ = [2]
        ∧ sys.DoCalcTimeDerivatives ⟨0, [2], [], []⟩ [0] = (.ok (), result)
        ∧ result.length = [(0 : ℚ)].length
        ∧ (∀ (i : Nat) (e : Expression), sys.dynamics_[i]? = some e →
            i < sys.leaf.continuous_states.sum
              ∧ ∃ y, e.Evaluate env = .ok y ∧ result[i]? = some y)
        ∧ (∀ i : Nat, sys.dynamics_.length ≤ i → result[i]? = [(0 : ℚ)][i]?)
        ∧ (∀ env' : Environment, env'.BindsContext sys ⟨0, [2], [], []⟩ →
            ∀ e ∈ sys.dynamics_, e.Evaluate env' = e.Evaluate env) :=
  ⟨_, rfl, by rfl,
    C10_DoCalcTimeDerivatives_writes true ⟨some t, [x], [], [.neg (.var x)], [], 0⟩ _ rfl
      (by rfl) (by decide) (by decide) (Or.inl rfl)
      (fun tv htv => by cases htv; exact ⟨by decide, by decide⟩)
      ⟨0, [2], [], []⟩ (by decide) [0] (by decide)⟩

/-- Claim C11 fails on the code in three ways. State `x` with dynamics
`[x + 1, x]` and period 1 is constructed with a discrete state of width 1, so
there is no next-state component 1 although 1 is below the dynamics length, and
`DoCalcDiscreteVariableUpdates` ends in an out-of-range fault after writing
component 0 (the value `0 + 1`). In a build with `DRAKE_ASSERT` disarmed, state
`x` with dynamics `[z]` is constructed and the call ends in an unbound-variable
fault. With the time variable `x` also the state variable, time 5 and state
`[7]`, dynamics `[x]` gives the next state 7, while `x` evaluates to 5 under
every environment that maps the time variable to the time of the context. -/
theorem C11_counterexample :
    (∃ sys, SymbolicVectorSystem.construct true
        ⟨none, [x], [], [.add (.var x) (.const 1), .var x], [], 1⟩ = .ok sys
      ∧ sys.time_period_ > 0 ∧ sys.dynamics_ ≠ []
      ∧ (⟨0, [], [0], []⟩ : Context).AllocatedFor sys
      ∧ sys.leaf.discrete_states = [1] ∧ 1 < sys.dynamics_.length
      ∧ sys.DoCalcDiscreteVariableUpdates ⟨0, [], [0], []⟩ [] [0]
          = (.error .outOfRange, [0 + 1]))
    ∧ (∃ sys, SymbolicVectorSystem.construct false ⟨none, [x], [], [.var z], [], 1⟩ = .ok sys
      ∧ sys.time_period_ > 0 ∧ sys.dynamics_ ≠ []
      ∧ (⟨0, [], [0], []⟩ : Context).AllocatedFor sys
      ∧ sys.DoCalcDiscreteVariableUpdates ⟨0, [], [0], []⟩ [] [0]
          = (.error .unboundVariable, [0]))
    ∧ (∃ sys, SymbolicVectorSystem.construct true ⟨some x, [x], [], [.var x], [], 1⟩ = .ok sys
      ∧ sys.time_period_ > 0 ∧ sys.dynamics_ ≠ [] ∧ sys.time_var_ = some x
      ∧ (⟨5, [], [7], []⟩ : Context).AllocatedFor sys
      ∧ sys.DoCalcDiscreteVariableUpdates ⟨5, [], [7], []⟩ [] [0] = (.ok (), [7])
      ∧ (∀ env' : Environment, env'.find x = some 5 → (Expression.var x).Evaluate env' = .ok 5)
      ∧ (∀ env' : Environment, ¬ env'.BindsContext sys ⟨5, [], [7], []⟩)) := by
  refine ⟨⟨_, rfl, by decide, by decide, by decide, by decide, by decide, by rfl⟩,
    ⟨_, rfl, by decide, by decide, by decide, by rfl⟩,
    ⟨_, rfl, by decide, by decide, rfl, by decide, by rfl, ?_, ?_⟩⟩
  · intro env' h
    unfold Expression.Evaluate
    rw [h]
  · rintro env' ⟨b1, b2, _⟩
    have h1 := b1 x rfl
    have h2 := b2 0 x 7 rfl rfl
    rw [h1] at h2
    revert h2
    decide

/-- Claim C11 as amended: for a constructed model with a positive period and a
non-empty dynamics vector that has at most as many rows as there are state
variables, built with `DRAKE_ASSERT` armed or with dynamics expressions that
refer to declared variables only, whose time variable is not also a state or
input variable, a context allocated for it and an update vector of the declared
width, `DoCalcDiscreteVariableUpdates` succeeds whatever the events argument
is; the environment produced by the binder binds time, discrete state and input
from the context; component `i` of the update vector then holds the value of
dynamics expression `i` under that environment, for every `i` below the
dynamics length, the other components are unchanged, and every environment with
those bindings gives the same values. -/
theorem C11_DoCalcDiscreteVariableUpdates_writes (armed : Bool) (a : Args)
    (sys : SymbolicVectorSystem)
    (h : SymbolicVectorSystem.construct armed a = .ok sys) (hp : sys.time_period_ > 0)
    (hd : sys.dynamics_ ≠ []) (hshape : sys.dynamics_.length ≤ sys.state_vars_.length)
    (hdecl : armed = true ∨ ¬ a.HasUndeclared a.dynamics)
    (htime : ∀ tv, sys.time_var_ = some tv → tv ∉ sys.state_vars_ ∧ tv ∉ sys.input_vars_)
    (context : Context) (hc : context.AllocatedFor sys)
    (updates : List ℚ) (hlen : updates.length = sys.leaf.discrete_states.sum) :
    ∃ env result, sys.PopulateEnvironmentFromContext context sys.env_ = .ok env
      ∧ env.BindsContext sys context
      ∧ sys.stateVector context = context.discrete_state
      ∧ (∀ events : List Nat,
          sys.DoCalcDiscreteVariableUpdates context events updates = (.ok (), result))
      ∧ result.length = updates.length
      ∧ (∀ (i : Nat) (e : Expression), sys.dynamics_[i]? = some e →
          i < sys.leaf.discrete_states.sum
            ∧ ∃ y, e.Evaluate env = .ok y ∧ result[i]? = some y)
      ∧ (∀ i : Nat, sys.dynamics_.length ≤ i → result[i]? = updates[i]?)
      ∧ (∀ env' : Environment, env'.BindsContext sys context →
          ∀ e ∈ sys.dynamics_, e.Evaluate env' = e.Evaluate env) := by
  obtain ⟨env, p0, p1, p2⟩ := populate_declared armed a sys h context hc sys.env_
  have hpos : 0 < sys.dynamics_.length := List.length_pos.2 hd
  have hs : 0 < sys.state_vars_.length := lt_of_lt_of_le hpos hshape
  have hfacts : (∀ e ∈ sys.dynamics_, e.GetVariables.IsSubsetOf (allVars a) = true)
      ∧ sys.leaf.discrete_states.sum = sys.state_vars_.length := by
    have h' := h
    rw [construct_eq_ok_iff] at h'
    obtain ⟨_, _, _, c4, _, rfl⟩ := h'
    refine ⟨declared_of_checked armed a 45 a.dynamics (c4 hs) hdecl, ?_⟩
    simp only at hp
    rw [declarations_discrete_sum, if_neg (ne_of_gt hp)]
  obtain ⟨hdeclared, hwidth⟩ := hfacts
  obtain ⟨result, e1, e2, e3, e4⟩ :=
    evaluateInto_declared a sys.dynamics_ env hdeclared p1 updates (by omega)
  refine ⟨env, result, p0, populate_bindsContext armed a sys h context hc _ env p0 htime,
    ?_, ?_, e2, ?_, e4, ?_⟩
  · unfold SymbolicVectorSystem.stateVector
    rw [if_pos hp]
  · intro events
    unfold SymbolicVectorSystem.DoCalcDiscreteVariableUpdates
    have hdem1 : DRAKE_DEMAND 135 (decide (sys.time_period_ > 0)) = .ok () := by
      rw [DRAKE_DEMAND_eq_ok_iff]; simpa using hp
    have hdem2 : DRAKE_DEMAND 136 (decide (sys.dynamics_.length > 0)) = .ok () := by
      rw [DRAKE_DEMAND_eq_ok_iff]; simpa using hpos
    rw [hdem1, hdem2]
    simp only [p0]
    exact e1
  · intro i e hi
    have := (List.getElem?_eq_some.1 hi).1
    exact ⟨by omega, e3 i e hi⟩
  · intro env' hb e he
    exact evaluate_agree a e env env' (hdeclared e he) (p2 env' hb)

/-- Witness of C11 as amended: period 1/10, state `x`, dynamics `[x + 1]` and
state `[0]` give the next state `[1]`. -/
theorem C11_DoCalcDiscreteVariableUpdates_writes_witness :
    ∃ sys, SymbolicVectorSystem.construct true
        ⟨none, [x], [], [.add (.var x) (.const 1)], [], 1 / 10⟩ = .ok sys
      ∧ sys.DoCalcDiscreteVariableUpdates ⟨0, [], [0], []⟩ [7] [0] = (.ok (), [1])
      ∧ ∃ env result, sys.PopulateEnvironmentFromContext ⟨0, [], [0], []⟩ sys.env_ = .ok env
        ∧ env.BindsContext sys ⟨0, [], [0], []⟩
        ∧ sys.stateVector ⟨0, [], [0], []⟩ = [0]
        ∧ (∀ events : List Nat,
            sys.DoCalcDiscreteVariableUpdates ⟨0, [], [0], []⟩ events [0] = (.ok (), result))
        ∧ result.length = [(0 : ℚ)].length
        ∧ (∀ (i : Nat) (e : Expression), sys.dynamics_[i]? = some e →
            i < sys.leaf.discrete_states.sum
              ∧ ∃ y, e.Evaluate env = .ok y ∧ result[i]? = some y)
        ∧ (∀ i : Nat, sys.dynamics_.length ≤ i → result[i]? = [(0 : ℚ)][i]?)
        ∧ (∀ env' : Environment, env'.BindsContext sys ⟨0, [], [0], []⟩ →
            ∀ e ∈ sys.dynamics_, e.Evaluate env' = e.Evaluate env) :=
  discreteScenario_update.elim fun sys hs =>
    ⟨sys, hs.1, hs.2.1,
      C11_DoCalcDiscreteVariableUpdates_writes true _ sys hs.1
        (by rw [((construct_eq_ok_iff _ _ _).1 hs.1).2.2.2.2.2]; norm_num)
        (by rw [((construct_eq_ok_iff _ _ _).1 hs.1).2.2.2.2.2]; decide)
        (by rw [((construct_eq_ok_iff _ _ _).1 hs.1).2.2.2.2.2]; decide)
        (Or.inl rfl)
        (fun tv htv => by
          rw [((construct_eq_ok_iff _ _ _).1 hs.1).2.2.2.2.2] at htv; cases htv)
        ⟨0, [], [0], []⟩ hs.2.2.1 [0] hs.2.2.2⟩

/-- Claim C12: for a constructed model, a context allocated for it and any
starting environment, the binder succeeds; the state vector it reads is the
discrete one if the period is positive and the continuous one if the period is
0; state variable `i` is bound to component `i` of that vector once the state
block has run and still is when the binder returns, and input variable `j` is
bound to component `j` of the input value when the binder returns. -/
theorem C12_binder_state_and_input (armed : Bool) (a : Args) (sys : SymbolicVectorSystem)
    (h : SymbolicVectorSystem.construct armed a = .ok sys) (context : Context)
    (hc : context.AllocatedFor sys) (env0 : Environment) :
    ∃ envS env, sys.bindState context (sys.bindTime context env0) = .ok envS
      ∧ sys.bindInput context envS = .ok env
      ∧ sys.PopulateEnvironmentFromContext context env0 = .ok env
      ∧ (sys.time_period_ > 0 → sys.stateVector context = context.discrete_state)
      ∧ (sys.time_period_ = 0 → sys.stateVector context = context.continuous_state)
      ∧ (∀ (i : Nat) (v : Variable), sys.state_vars_[i]? = some v →
          ∃ x, (sys.stateVector context)[i]? = some x
            ∧ envS.find v = some x ∧ env.find v = some x)
      ∧ (∀ (j : Nat) (v : Variable), sys.input_vars_[j]? = some v →
          ∃ x, context.input[j]? = some x ∧ env.find v = some x) := by
  obtain ⟨hlen_i, hlen_s⟩ := allocated_lengths armed a sys h context hc
  obtain ⟨hns, hni, hdisj⟩ := constructed_nodup armed a sys h
  obtain ⟨envS, s0, s1, s2⟩ := bindState_spec sys context hns (le_of_eq hlen_s.symm)
    (sys.bindTime context env0)
  obtain ⟨env, i0, i1, i2⟩ := bindInput_spec sys context hni (le_of_eq hlen_i.symm) envS
  refine ⟨envS, env, s0, i0, ?_, ?_, ?_, ?_, ?_⟩
  · unfold SymbolicVectorSystem.PopulateEnvironmentFromContext
    rw [s0]
    exact i0
  · intro hp
    unfold SymbolicVectorSystem.stateVector
    rw [if_pos hp]
  · intro hp
    unfold SymbolicVectorSystem.stateVector
    rw [if_neg (by rw [hp]; exact lt_irrefl _)]
  · intro i v hv
    have hil : i < (sys.stateVector context).length := by
      rw [hlen_s]; exact (List.getElem?_eq_some.1 hv).1
    refine ⟨(sys.stateVector context)[i], List.getElem?_eq_getElem hil, ?_, ?_⟩
    · rw [s2 i v hv, List.getElem?_eq_getElem hil]
    · rw [i1 v (hdisj v (List.getElem?_mem hv)), s2 i v hv, List.getElem?_eq_getElem hil]
  · intro j v hv
    have hjl : j < context.input.length := by
      rw [hlen_i]; exact (List.getElem?_eq_some.1 hv).1
    exact ⟨context.input[j], List.getElem?_eq_getElem hjl, by
      rw [i2 j v hv, List.getElem?_eq_getElem hjl]⟩

/-- Witness of C12: time `t`, states `x`, `x2`, input `u`, at time 5, state
`[7, 8]` and input `[3]`. -/
theorem C12_binder_state_and_input_witness :
    ∃ sys, SymbolicVectorSystem.construct true
        ⟨some t, [x, x2], [u], [], [.add (.var u) (.var x)], 0⟩ = .ok sys
      ∧ sys.PopulateEnvironmentFromContext ⟨5, [7, 8], [], [3]⟩ sys.env_
          = .ok ⟨[(t, 5), (x, 7), (u, 3), (x2, 8)]⟩
      ∧ ∃ envS env, sys.bindState ⟨5, [7, 8], [], [3]⟩
            (sys.bindTime ⟨5, [7, 8], [], [3]⟩ sys.env_) = .ok envS
        ∧ sys.bindInput ⟨5, [7, 8], [], [3]⟩ envS = .ok env
        ∧ sys.PopulateEnvironmentFromContext ⟨5, [7, 8], [], [3]⟩ sys.env_ = .ok env
        ∧ (sys.time_period_ > 0 → sys.stateVector ⟨5, [7, 8], [], [3]⟩ = [])
        ∧ (sys.time_period_ = 0 → sys.stateVector ⟨5, [7, 8], [], [3]⟩ = [7, 8])
        ∧ (∀ (i : Nat) (v : Variable), sys.state_vars_[i]? = some v →
            ∃ x, (sys.stateVector ⟨5, [7, 8], [], [3]⟩)[i]? = some x
              ∧ envS.find v = some x ∧ env.find v = some x)
        ∧ (∀ (j : Nat) (v : Variable), sys.input_vars_[j]? = some v →
            ∃ x, ([3] : List ℚ)[j]? = some x ∧ env.find v = some x) :=
  ⟨_, rfl, by decide,
    C12_binder_state_and_input true ⟨some t, [x, x2], [u], [], [.add (.var u) (.var x)], 0⟩
      _ rfl ⟨5, [7, 8], [], [3]⟩ (by decide) _⟩

/-- Claim C13 fails on the code: when the time variable `x` is also the state
variable, the binder first writes the time 5 and then overwrites it with the
state component 7. -/
theorem C13_counterexample :
    ∃ sys, SymbolicVectorSystem.construct true ⟨some x, [x], [], [], [.var x], 0⟩ = .ok sys
      ∧ sys.time_var_ = some x
      ∧ (⟨5, [7], [], []⟩ : Context).AllocatedFor sys
      ∧ ∃ env, sys.PopulateEnvironmentFromContext ⟨5, [7], [], []⟩ sys.env_ = .ok env
        ∧ env.find x = some 7 ∧ env.find x ≠ some 5 :=
  ⟨_, rfl, by decide, by decide, _, rfl, by decide, by decide⟩

/-- Claim C13 as amended: for a constructed model whose time variable is not
also a state or input variable, and a context allocated for it, the binder
succeeds and the resulting environment maps the time variable to the time of
the context. -/
theorem C13_binder_time (armed : Bool) (a : Args) (sys : SymbolicVectorSystem)
    (h : SymbolicVectorSystem.construct armed a = .ok sys) (context : Context)
    (hc : context.AllocatedFor sys) (env0 : Environment) (tv : Variable)
    (ht : sys.time_var_ = some tv) (hts : tv ∉ sys.state_vars_) (hti : tv ∉ sys.input_vars_) :
    ∃ env, sys.PopulateEnvironmentFromContext context env0 = .ok env
      ∧ env.find tv = some context.time := by
  obtain ⟨env, p0, _, _, p3, _⟩ := populate_spec armed a sys h context hc env0
  exact ⟨env, p0, p3 tv ht hts hti⟩

/-- Witness of C13 as amended: time `t`, state `x`, input `u`, at time 5. -/
theorem C13_binder_time_witness :
    ∃ sys, SymbolicVectorSystem.construct true
        ⟨some t, [x], [u], [], [.add (.var u) (.var x)], 0⟩ = .ok sys
      ∧ ∃ env, sys.PopulateEnvironmentFromContext ⟨5, [7], [], [3]⟩ sys.env_ = .ok env
        ∧ env.find t = some 5 :=
  ⟨_, rfl, C13_binder_time true ⟨some t, [x], [u], [], [.add (.var u) (.var x)], 0⟩ _ rfl
    ⟨5, [7], [], [3]⟩ (by decide) _ t rfl (by decide) (by decide)⟩

/-- Claim C14: for every system object, hence for every constructed model, and
any sequence of earlier calls of the three callbacks, on any contexts: the
member `env_` after those calls is the member before them, `CalcOutput` called
after them produces what it produces without them, and that is the result of
the method. The callbacks are modelled as steps on the object in which the
copy `Environment env = env_;` and the pointer handed to the binder are
explicit; the member survives because the binder writes through the pointer to
the copy. -/
theorem C14_output_history_independent (sys : SymbolicVectorSystem) (history : List Call)
    (context : Context) (output_vector : List ℚ) :
    (sys.after history).env_ = sys.env_
    ∧ ((sys.after history).call (.CalcOutput context output_vector)).2
        = (sys.call (.CalcOutput context output_vector)).2
    ∧ (sys.call (.CalcOutput context output_vector)).2
        = sys.CalcOutput context output_vector := by
  refine ⟨by rw [after_eq], by rw [after_eq], call_CalcOutput_snd sys context output_vector⟩

/-- Witness of C14: input `u`, output `[2 * u]`; after an output call at input
`[4]` and a derivative call, the output at input `[3]` is `[6]`, as without
them. -/
theorem C14_output_history_independent_witness :
    ∃ sys, SymbolicVectorSystem.construct true
        ⟨none, [], [u], [], [.mul (.const 2) (.var u)], 0⟩ = .ok sys
      ∧ (sys.call (.CalcOutput ⟨0, [], [], [3]⟩ [0])).2 = (.ok (), [6])
      ∧ (sys.after [.CalcOutput ⟨0, [], [], [4]⟩ [0],
            .DoCalcTimeDerivatives ⟨1, [], [], [5]⟩ []]).env_ = sys.env_
      ∧ ((sys.after [.CalcOutput ⟨0, [], [], [4]⟩ [0],
            .DoCalcTimeDerivatives ⟨1, [], [], [5]⟩ []]).call
          (.CalcOutput ⟨0, [], [], [3]⟩ [0])).2
          = (sys.call (.CalcOutput ⟨0, [], [], [3]⟩ [0])).2
      ∧ (sys.call (.CalcOutput ⟨0, [], [], [3]⟩ [0])).2 = sys.CalcOutput ⟨0, [], [], [3]⟩ [0] :=
  ⟨_, rfl, by rw [show (6 : ℚ) = 2 * 3 by norm_num]; rfl,
    C14_output_history_independent _
      [.CalcOutput ⟨0, [], [], [4]⟩ [0], .DoCalcTimeDerivatives ⟨1, [], [], [5]⟩ []]
      ⟨0, [], [], [3]⟩ [0]⟩

/-- Claim C15: a constructed model without state variables declares no
continuous state, no discrete state and no periodic update; with state
variables and period 0 it declares one continuous state with one component per
state variable, and neither a discrete state nor a periodic update; with state
variables and a positive period it declares one discrete state with one
component per state variable and one periodic update with the given period and
offset 0, and no continuous state. -/
theorem C15_state_declarations (armed : Bool) (a : Args) (sys : SymbolicVectorSystem)
    (h : SymbolicVectorSystem.construct armed a = .ok sys) :
    (sys.state_vars_ = [] →
      sys.leaf.continuous_states = [] ∧ sys.leaf.discrete_states = []
        ∧ sys.leaf.periodic_discrete_updates = [])
    ∧ (sys.state_vars_ ≠ [] → sys.time_period_ = 0 →
      sys.leaf.continuous_states = [sys.state_vars_.length]
        ∧ sys.leaf.discrete_states = [] ∧ sys.leaf.periodic_discrete_updates = [])
    ∧ (sys.state_vars_ ≠ [] → sys.time_period_ > 0 →
      sys.leaf.discrete_states = [sys.state_vars_.length]
        ∧ sys.leaf.periodic_discrete_updates = [(sys.time_period_, 0)]
        ∧ sys.leaf.continuous_states = []) := by
  rw [construct_eq_ok_iff] at h
  obtain ⟨_, _, _, _, _, rfl⟩ := h
  simp only
  refine ⟨?_, ?_, ?_⟩
  · intro hs
    unfold declarations
    by_cases hi : a.input_vars.length > 0 <;> by_cases ho : a.output.length > 0 <;>
      simp [hs, hi, ho]
  · intro hs hp
    have hs' : a.state_vars.length > 0 := List.length_pos.2 hs
    unfold declarations
    by_cases hi : a.input_vars.length > 0 <;> by_cases ho : a.output.length > 0 <;>
      simp [hs', hp, hi, ho]
  · intro hs hp
    have hs' : a.state_vars.length > 0 := List.length_pos.2 hs
    have hp' : ¬ a.time_period = 0 := ne_of_gt hp
    unfold declarations
    by_cases hi : a.input_vars.length > 0 <;> by_cases ho : a.output.length > 0 <;>
      simp [hs', hp', hi, ho]

/-- Witness of C15: a model without state, the continuous scenario and the
discrete scenario of period 1/10. -/
theorem C15_state_declarations_witness :
    (∃ sys, SymbolicVectorSystem.construct true
        ⟨none, [], [u], [], [.mul (.const 2) (.var u)], 0⟩ = .ok sys
      ∧ sys.leaf.continuous_states = [] ∧ sys.leaf.discrete_states = []
      ∧ sys.leaf.periodic_discrete_updates = [])
    ∧ (∃ sys, SymbolicVectorSystem.construct true
        ⟨some t, [x], [], [.neg (.var x)], [], 0⟩ = .ok sys
      ∧ sys.leaf.continuous_states = [1] ∧ sys.leaf.discrete_states = []
      ∧ sys.leaf.periodic_discrete_updates = [])
    ∧ (∃ sys, SymbolicVectorSystem.construct true
        ⟨none, [x], [], [.add (.var x) (.const 1)], [], 1 / 10⟩ = .ok sys
      ∧ sys.leaf.discrete_states = [1]
      ∧ sys.leaf.periodic_discrete_updates = [(1 / 10, 0)]
      ∧ sys.leaf.continuous_states = []) :=
  ⟨⟨_, rfl, (C15_state_declarations true
      ⟨none, [], [u], [], [.mul (.const 2) (.var u)], 0⟩ _ rfl).1 rfl⟩,
   ⟨_, rfl, (C15_state_declarations true
      ⟨some t, [x], [], [.neg (.var x)], [], 0⟩ _ rfl).2.1 (by decide) rfl⟩,
   discreteScenario_constructed.elim fun sys hs =>
    ⟨sys, hs, by
      have e := ((construct_eq_ok_iff _ _ _).1 hs).2.2.2.2.2
      have := (C15_state_declarations true _ sys hs).2.2
        (by rw [e]; decide) (by rw [e]; norm_num)
      rw [e] at this ⊢
      exact this⟩⟩

/-- Claim C16: in a constructed model the variables with an entry in the
template `env_` are exactly the time variable (if there is one), the state
variables and the input variables, and every entry has the value 0. -/
theorem C16_template (armed : Bool) (a : Args) (sys : SymbolicVectorSystem)
    (h : SymbolicVectorSystem.construct armed a = .ok sys) :
    (∀ v, v ∈ sys.env_.keys
        ↔ sys.time_var_ = some v ∨ v ∈ sys.state_vars_ ∨ v ∈ sys.input_vars_)
    ∧ (∀ v, v ∈ sys.env_.keys → sys.env_.find v = some 0)
    ∧ (∀ p ∈ sys.env_.entries, p.2 = 0) := by
  have hiff : ∀ v, v ∈ sys.env_.keys ↔ a.Declares v := by
    intro v
    obtain ⟨_, hf⟩ := find_template armed a sys h v
    rw [mem_keys_iff, hf]
    by_cases hd : a.Declares v
    · simp [hd]
    · simp [hd]
  refine ⟨?_, ?_, ?_⟩
  · intro v
    obtain ⟨⟨e1, e2, e3⟩, _⟩ := find_template armed a sys h v
    rw [hiff, e1, e2, e3]
    rfl
  · intro v hv
    obtain ⟨_, hf⟩ := find_template armed a sys h v
    rw [hf, if_pos ((hiff v).1 hv)]
  · have h' := h
    rw [construct_eq_ok_iff] at h'
    obtain ⟨_, _, _, _, _, rfl⟩ := h'
    exact entries_foldl_insert _ _ (fun p hp => by cases hp)

/-- Witness of C16: time `t`, state `x`, input `u`. -/
theorem C16_template_witness :
    ∃ sys, SymbolicVectorSystem.construct true
        ⟨some t, [x], [u], [], [.add (.var u) (.var x)], 0⟩ = .ok sys
      ∧ sys.env_ = ⟨[(t, 0), (x, 0), (u, 0)]⟩
      ∧ (∀ v, v ∈ sys.env_.keys
          ↔ sys.time_var_ = some v ∨ v ∈ sys.state_vars_ ∨ v ∈ sys.input_vars_)
      ∧ (∀ v, v ∈ sys.env_.keys → sys.env_.find v = some 0)
      ∧ (∀ p ∈ sys.env_.entries, p.2 = 0) :=
  ⟨_, rfl, by decide,
    C16_template true ⟨some t, [x], [u], [], [.add (.var u) (.var x)], 0⟩ _ rfl⟩

/-- Claim C17: the call `DoHasDirectFeedthrough(0, 0)` completes with in-range
reads only if and only if the first output expression exists and refers to an
input variable, and it then returns true; a call that returned false would
have read `output_[output_.size()]` or `input_vars_[input_vars_.size()]`
(in this embedding such a read ends the call, so false is never returned). -/
theorem C17_feedthrough_exact (sys : SymbolicVectorSystem) :
    ((sys.DoHasDirectFeedthrough 0 0).CompletesInRange sys ↔ sys.FirstOutputUsesInput)
    ∧ (sys.FirstOutputUsesInput →
        (sys.DoHasDirectFeedthrough 0 0).flow = .returned (some true))
    ∧ ((sys.DoHasDirectFeedthrough 0 0).flow = .returned (some false) →
        Access.output sys.output_.length ∈ (sys.DoHasDirectFeedthrough 0 0).reads
          ∨ Access.input_vars sys.input_vars_.length
              ∈ (sys.DoHasDirectFeedthrough 0 0).reads) := by
  have key : (sys.FirstOutputUsesInput →
        (sys.DoHasDirectFeedthrough 0 0).flow = .returned (some true)
          ∧ ∀ a ∈ (sys.DoHasDirectFeedthrough 0 0).reads, a.inRange sys = true)
      ∧ (¬ sys.FirstOutputUsesInput →
        (sys.DoHasDirectFeedthrough 0 0).flow = .fault .outOfRange) := by
    rw [DoHasDirectFeedthrough_eq_first_row]
    cases ho : sys.output_[0]? with
    | none =>
      refine ⟨fun h => ?_, fun _ => ?_⟩
      · obtain ⟨e, he, _⟩ := h
        rw [ho] at he; cases he
      · rw [List.range_succ_eq_map]
        unfold feedthroughInner
        rw [ho]
    | some e =>
      have hA := feedthroughInner_append sys 0 e ho (List.range sys.input_vars_.length)
        [sys.input_vars_.length] (fun j hj => List.mem_range.1 hj)
      rw [← List.range_succ] at hA
      have hequiv : sys.FirstOutputUsesInput
          ↔ ∃ j ∈ List.range sys.input_vars_.length, ∃ v,
              sys.input_vars_[j]? = some v ∧ e.GetVariables.include v = true := by
        unfold SymbolicVectorSystem.FirstOutputUsesInput
        rw [ho]
        constructor
        · rintro ⟨e', he', v, hv, hinc⟩
          cases he'
          obtain ⟨j, hj⟩ := List.mem_iff_getElem?.1 hv
          exact ⟨j, List.mem_range.2 (List.getElem?_eq_some.1 hj).1, v, hj, hinc⟩
        · rintro ⟨j, _, v, hj, hinc⟩
          exact ⟨e, rfl, v, List.getElem?_mem hj, hinc⟩
      refine ⟨fun h => hA.1 (hequiv.1 h), fun h => ?_⟩
      rw [hA.2 (fun hc => h (hequiv.2 hc))]
      unfold feedthroughInner
      rw [ho, List.getElem?_eq_none (le_refl _)]
  refine ⟨⟨fun hc => ?_, fun h => ⟨⟨_, (key.1 h).1⟩, (key.1 h).2⟩⟩, fun h => (key.1 h).1, ?_⟩
  · by_contra hno
    obtain ⟨⟨value, hv⟩, _⟩ := hc
    rw [key.2 hno] at hv
    cases hv
  · intro hf
    by_cases h : sys.FirstOutputUsesInput
    · rw [(key.1 h).1] at hf; cases hf
    · rw [key.2 h] at hf; cases hf

/-- Witness of C17: output `[u + x]` completes in range and returns true,
output `[x]` does not complete in range. -/
theorem C17_feedthrough_exact_witness :
    (∃ sys, SymbolicVectorSystem.construct true
        ⟨none, [x], [u], [], [.add (.var u) (.var x)], 0⟩ = .ok sys
      ∧ (sys.DoHasDirectFeedthrough 0 0).CompletesInRange sys
      ∧ (sys.DoHasDirectFeedthrough 0 0).flow = .returned (some true))
    ∧ (∃ sys, SymbolicVectorSystem.construct true ⟨none, [x], [u], [], [.var x], 0⟩ = .ok sys
      ∧ ¬ (sys.DoHasDirectFeedthrough 0 0).CompletesInRange sys) :=
  ⟨⟨_, rfl, (C17_feedthrough_exact _).1.2 ⟨_, rfl, u, by decide, by decide⟩,
      (C17_feedthrough_exact _).2.1 ⟨_, rfl, u, by decide, by decide⟩⟩,
   ⟨_, rfl, fun hc => by
      obtain ⟨e, he, v, hv, hinc⟩ := (C17_feedthrough_exact _).1.1 hc
      cases he
      rw [List.mem_singleton.1 hv] at hinc
      revert hinc
      decide⟩⟩

/-- Claim C18: for a constructed model and a context allocated for it, the
binder run on a copy of the template succeeds and returns an environment with
the keys of the template, in the same order: the time variable, the state
variables and the input variables, and no other variable. -/
theorem C18_binder_keeps_keys (armed : Bool) (a : Args) (sys : SymbolicVectorSystem)
    (h : SymbolicVectorSystem.construct armed a = .ok sys) (context : Context)
    (hc : context.AllocatedFor sys) :
    ∃ env, sys.PopulateEnvironmentFromContext context sys.env_ = .ok env
      ∧ env.keys = sys.env_.keys
      ∧ (∀ v, v ∈ env.keys
          ↔ sys.time_var_ = some v ∨ v ∈ sys.state_vars_ ∨ v ∈ sys.input_vars_) := by
  obtain ⟨hlen_i, hlen_s⟩ := allocated_lengths armed a sys h context hc
  have hkeys : ∀ v, v ∈ sys.env_.keys
      ↔ sys.time_var_ = some v ∨ v ∈ sys.state_vars_ ∨ v ∈ sys.input_vars_ := by
    intro v
    obtain ⟨⟨e1, e2, e3⟩, hf⟩ := find_template armed a sys h v
    rw [mem_keys_iff, hf, e1, e2, e3]
    by_cases hd : a.Declares v
    · simp only [if_pos hd, Option.isSome_some, true_iff]; exact hd
    · simp only [if_neg hd, Option.isSome_none, Bool.false_eq_true, false_iff]; exact hd
  -- the time variable
  have hT : (sys.bindTime context sys.env_).keys = sys.env_.keys := by
    unfold SymbolicVectorSystem.bindTime
    cases ht : sys.time_var_ with
    | none => rfl
    | some tv =>
      simp only
      exact keys_assign _ _ _ ((hkeys tv).2 (Or.inl ht))
  -- the state variables
  obtain ⟨envS, hS, hSk⟩ : ∃ envS, sys.bindState context (sys.bindTime context sys.env_)
      = .ok envS ∧ envS.keys = sys.env_.keys := by
    unfold SymbolicVectorSystem.bindState
    by_cases hs : sys.state_vars_.length > 0
    · rw [if_pos hs]
      obtain ⟨_, r2⟩ := nodup_range_and_bounds sys.state_vars_.length
        (sys.stateVector context).length (le_of_eq hlen_s.symm)
      obtain ⟨env', b1, b2⟩ := bindVariables_keys sys.state_vars_ (sys.stateVector context)
        _ r2 (sys.bindTime context sys.env_)
        (fun v hv => by rw [hT]; exact (hkeys v).2 (Or.inr (Or.inl hv)))
      exact ⟨env', b1, by rw [b2, hT]⟩
    · rw [if_neg hs]
      exact ⟨_, rfl, hT⟩
  -- the input variables
  obtain ⟨env, hI, hIk⟩ : ∃ env, sys.bindInput context envS = .ok env
      ∧ env.keys = sys.env_.keys := by
    unfold SymbolicVectorSystem.bindInput
    by_cases hs : sys.input_vars_.length > 0
    · rw [if_pos hs]
      obtain ⟨_, r2⟩ := nodup_range_and_bounds sys.input_vars_.length
        context.input.length (le_of_eq hlen_i.symm)
      obtain ⟨env', b1, b2⟩ := bindVariables_keys sys.input_vars_ context.input
        _ r2 envS (fun v hv => by rw [hSk]; exact (hkeys v).2 (Or.inr (Or.inr hv)))
      exact ⟨env', b1, by rw [b2, hSk]⟩
    · rw [if_neg hs]
      exact ⟨_, rfl, hSk⟩
  refine ⟨env, ?_, hIk, fun v => by rw [hIk]; exact hkeys v⟩
  unfold SymbolicVectorSystem.PopulateEnvironmentFromContext
  rw [hS]
  exact hI

/-- Witness of C18: time `t`, state `x`, input `u`, at time 5, state `[7]` and
input `[3]`. -/
theorem C18_binder_keeps_keys_witness :
    ∃ sys, SymbolicVectorSystem.construct true
        ⟨some t, [x], [u], [], [.add (.var u) (.var x)], 0⟩ = .ok sys
      ∧ sys.env_.keys = [t, x, u]
      ∧ ∃ env, sys.PopulateEnvironmentFromContext ⟨5, [7], [], [3]⟩ sys.env_ = .ok env
        ∧ env.keys = sys.env_.keys
        ∧ (∀ v, v ∈ env.keys
            ↔ sys.time_var_ = some v ∨ v ∈ sys.state_vars_ ∨ v ∈ sys.input_vars_) :=
  ⟨_, rfl, by decide,
    C18_binder_keeps_keys true ⟨some t, [x], [u], [], [.add (.var u) (.var x)], 0⟩ _ rfl
      ⟨5, [7], [], [3]⟩ (by decide)⟩

/-- Claim C19: for a constructed model with period 0, `DoCalcTimeDerivatives`
is stopped by one of its `DRAKE_DEMAND`s exactly when the dynamics vector is
empty, and likewise `DoCalcDiscreteVariableUpdates` for a positive period.
State `x` with output `[x]` and no dynamics is constructed, with a continuous
state (period 0) or a discrete state and a periodic update (period 1/10)
declared, and the derivative or update callback of that model fails at its
second `DRAKE_DEMAND` for every context. -/
theorem C19_checks_pass_iff_dynamics :
    (∀ (armed : Bool) (a : Args) (sys : SymbolicVectorSystem),
      SymbolicVectorSystem.construct armed a = .ok sys →
        (sys.time_period_ = 0 → ∀ (context : Context) (derivatives : List ℚ),
          (¬ StoppedByDemand (sys.DoCalcTimeDerivatives context derivatives)
            ↔ sys.dynamics_ ≠ []))
        ∧ (sys.time_period_ > 0 →
          ∀ (context : Context) (events : List Nat) (updates : List ℚ),
            (¬ StoppedByDemand (sys.DoCalcDiscreteVariableUpdates context events updates)
              ↔ sys.dynamics_ ≠ [])))
    ∧ (∃ sys, SymbolicVectorSystem.construct true ⟨none, [x], [], [], [.var x], 0⟩ = .ok sys
        ∧ sys.leaf.continuous_states = [1]
        ∧ ∀ (context : Context) (derivatives : List ℚ),
            sys.DoCalcTimeDerivatives context derivatives
              = (.error (.demand 119), derivatives))
    ∧ (∃ sys, SymbolicVectorSystem.construct true
          ⟨none, [x], [], [], [.var x], 1 / 10⟩ = .ok sys
        ∧ sys.leaf.discrete_states = [1]
        ∧ sys.leaf.periodic_discrete_updates = [(1 / 10, 0)]
        ∧ ∀ (context : Context) (events : List Nat) (updates : List ℚ),
            sys.DoCalcDiscreteVariableUpdates context events updates
              = (.error (.demand 136), updates)) := by
  refine ⟨?_, ?_, ?_⟩
  · intro armed a sys _
    constructor
    · intro hp context derivatives
      constructor
      · intro hns hd
        apply hns
        exact ⟨119, by rw [DoCalcTimeDerivatives_empty sys context derivatives hp hd]⟩
      · intro hne hs
        rcases DoCalcTimeDerivatives_demand sys context derivatives hs with h | h
        · exact h hp
        · exact hne h
    · intro hp context events updates
      constructor
      · intro hns hd
        apply hns
        exact ⟨136, by rw [DoCalcDiscreteVariableUpdates_empty sys context events updates hp hd]⟩
      · intro hne hs
        rcases DoCalcDiscreteVariableUpdates_demand sys context events updates hs with h | h
        · exact h hp
        · exact hne h
  · exact ⟨_, rfl, by decide, fun context derivatives =>
      DoCalcTimeDerivatives_empty _ context derivatives rfl rfl⟩
  · have hp' : ¬ ((1 : ℚ) / 10 = 0) := by norm_num
    refine ⟨_, (construct_eq_ok_iff _ _ _).2
      ⟨Or.inr (by decide), by norm_num, by decide, fun _ => by decide, fun _ => by decide,
        rfl⟩, ?_, ?_, ?_⟩
    · simp [declarations, hp']
    · simp [declarations, hp']
    · intro context events updates
      exact DoCalcDiscreteVariableUpdates_empty _ context events updates (by norm_num) rfl

/-- Witness of C19: the continuous scenario with dynamics `[-x]` passes the
checks of `DoCalcTimeDerivatives`. -/
theorem C19_checks_pass_iff_dynamics_witness :
    ∃ sys, SymbolicVectorSystem.construct true ⟨some t, [x], [], [.neg (.var x)], [], 0⟩
        = .ok sys
      ∧ (¬ StoppedByDemand (sys.DoCalcTimeDerivatives ⟨0, [2], [], []⟩ [0])
          ↔ sys.dynamics_ ≠ []) :=
  ⟨_, rfl, (C19_checks_pass_iff_dynamics.1 true ⟨some t, [x], [], [.neg (.var x)], [], 0⟩
    _ rfl).1 rfl ⟨0, [2], [], []⟩ [0]⟩

end systems
end drake
